import Mathlib

/-!
Verification of the extraction core of the PDF-to-Excel electoral-roll OCR
converter (`src/script.py`).  The pipeline stages modelled here are:

* `clean` — `clean_ocr_text_advanced` (lines 236-284): OCR lexical corrections
  followed by whitespace / punctuation normalisation;
* `extractTextMulti` — the selection loop of
  `extract_text_from_image_multi_config` (lines 196-234), with the external
  OCR collaborator results supplied as inputs;
* `extractMetadataFlexible` — `extract_metadata_flexible` (lines 286-350);
* `findVoterRecordsFlexible` — `find_voter_records_flexible` (lines 352-429);
* `parseVoterRecordFlexible` — `parse_voter_record_flexible` (lines 431-571)
  together with `categorize_age` and `determine_region`.

Strings are modelled as `List Char`; each Python regular expression used by
the source is translated into a dedicated character-level matcher that follows
Python `re` backtracking semantics (leftmost match, greedy / lazy
quantifiers, alternation in written order, word boundaries, `$`, flags).
All scanners use an explicit fuel argument (always instantiated with the text
length plus one, which is sufficient since every step consumes at least one
character), so every definition is executable by the kernel.
-/

set_option maxRecDepth 100000

namespace PdfOcr

/-- Python `\s` (ASCII range): space, tab, newline, carriage return,
vertical tab, form feed. -/
def pyWS (c : Char) : Bool :=
  c == ' ' || c == '\t' || c == '\n' || c == '\x0d' || c == '\x0b' || c == '\x0c'

/-- Python `\w` (ASCII range): letters, digits, underscore. -/
def isWordC (c : Char) : Bool :=
  c.isAlpha || c.isDigit || c == '_'

/-- ASCII lower-casing, as used by `str.lower()` / `re.IGNORECASE` on the
ASCII texts handled by this pipeline. -/
def lc (c : Char) : Char :=
  if 'A' ≤ c ∧ c ≤ 'Z' then Char.ofNat (c.toNat + 32) else c

/-- Case-insensitive character equality. -/
def ciEq (a b : Char) : Bool := lc a == lc b

/-- Case-insensitive "the text starts with the key". -/
def ciStarts : List Char → List Char → Bool
  | [], _ => true
  | _ :: _, [] => false
  | k :: ks, c :: cs => ciEq k c && ciStarts ks cs

/-- Word-character status of an optional character (outside the string counts
as a non-word position, as for `\b`). -/
def isWordOpt : Option Char → Bool
  | none => false
  | some c => isWordC c

/-- Whether pattern `\b<key>\b` (case-insensitive) matches at the head of `l`,
where `prevW` records whether the character just before `l` is a word
character. -/
def boundedKeyAt (key : List Char) (prevW : Bool) (l : List Char) : Bool :=
  (prevW != isWordOpt key.head?)
    && ciStarts key l
    && (isWordOpt (l.get? key.length) != isWordC (key.getLastD '?'))

/-- Scan for `re.sub(r'\b' + key + r'\b', repl, text, flags=IGNORECASE)`:
leftmost non-overlapping matches, replacement emitted, scanning resumes after
the matched characters of the original text. -/
def subBGo (key repl : List Char) : Nat → Bool → List Char → List Char
  | 0, _, l => l
  | _ + 1, _, [] => []
  | fuel + 1, prevW, c :: rest =>
    if boundedKeyAt key prevW (c :: rest) then
      repl ++ subBGo key repl fuel
        (isWordC (((c :: rest).take key.length).getLastD '?'))
        ((c :: rest).drop key.length)
    else
      c :: subBGo key repl fuel (isWordC c) rest

/-- One whole-word case-insensitive substitution pass. -/
def subBounded (key repl l : List Char) : List Char :=
  if key.isEmpty then l else subBGo key repl (l.length + 1) false l

/-- The `ocr_corrections` table of `clean_ocr_text_advanced`, in the exact
insertion order of the Python dict literal. -/
def ocrCorrections : List (List Char × List Char) :=
  [("Nanre", "Name"), ("Narne", "Name"), ("Natne", "Name"), ("Nanie", "Name"),
   ("Narme", "Name"), ("Namre", "Name"), ("Nanne", "Name"),
   ("Fathers", "Father"), ("Fathars", "Father"), ("Fathar", "Father"),
   ("Husbands", "Husband"), ("Hurband", "Husband"), ("Husbamd", "Husband"),
   ("Hursband", "Husband"), ("Husbanc", "Husband"),
   ("Aqe", "Age"), ("Agg", "Age"), ("Agge", "Age"), ("Agae", "Age"),
   ("Gendsr", "Gender"), ("Gendet", "Gender"), ("Gencer", "Gender"),
   ("Malg", "Male"), ("Malle", "Male"), ("Maie", "Male"),
   ("Fernale", "Female"), ("Femala", "Female"), ("Femsle", "Female"),
   ("Femaie", "Female"), ("Fenale", "Female"),
   ("Houre", "House"), ("Housr", "House"), ("Hourse", "House"),
   ("Numbsr", "Number"), ("Numbef", "Number"), ("Numbar", "Number"),
   ("|", "I"), ("rn", "m"), ("0", "O"),
   ("cl", "d"), ("ii", "ll"), ("vv", "w")].map
    (fun p => (p.1.data, p.2.data))

/-- All correction substitutions, applied sequentially in table order. -/
def applyCorrections (l : List Char) : List Char :=
  ocrCorrections.foldl (fun acc p => subBounded p.1 p.2 acc) l

/-- `re.sub(r'\s+', ' ', text)`: each maximal whitespace run becomes a single
space. -/
def wsCGo : Nat → List Char → List Char
  | 0, l => l
  | _ + 1, [] => []
  | fuel + 1, c :: rest =>
    if pyWS c then ' ' :: wsCGo fuel (rest.dropWhile pyWS)
    else c :: wsCGo fuel rest

def wsCollapse (l : List Char) : List Char := wsCGo (l.length + 1) l

/-- Index of the last newline inside the maximal whitespace prefix of `l`
(used for the greedy-with-backtracking `\n\s*\n` match). -/
def lastNL : List Char → Option Nat
  | [] => none
  | c :: rest =>
    if pyWS c then
      match lastNL rest with
      | some k => some (k + 1)
      | none => if c = '\n' then some 0 else none
    else none

/-- `re.sub(r'\n\s*\n', '\n', text)`. -/
def nlCGo : Nat → List Char → List Char
  | 0, l => l
  | _ + 1, [] => []
  | fuel + 1, c :: rest =>
    if c = '\n' then
      match lastNL rest with
      | some k => '\n' :: nlCGo fuel (rest.drop (k + 1))
      | none => c :: nlCGo fuel rest
    else c :: nlCGo fuel rest

def nlCollapse (l : List Char) : List Char := nlCGo (l.length + 1) l

/-- Python `str.strip()`. -/
def pyStrip (l : List Char) : List Char :=
  ((l.dropWhile pyWS).reverse.dropWhile pyWS).reverse

/-- `re.sub(r'\s*' + p + r'\s*', p + ' ', text)` for a non-whitespace
punctuation character `p` (used with `:` and `,`).  At each position the
pattern matches exactly when skipping the maximal whitespace run lands on
`p`; the match then also consumes the following whitespace run. -/
def punctFixGo (p : Char) : Nat → List Char → List Char
  | 0, l => l
  | _ + 1, [] => []
  | fuel + 1, c :: rest =>
    if c = p then
      p :: ' ' :: punctFixGo p fuel (rest.dropWhile pyWS)
    else if pyWS c then
      match (c :: rest).dropWhile pyWS with
      | q :: rest2 =>
        if q = p then p :: ' ' :: punctFixGo p fuel (rest2.dropWhile pyWS)
        else c :: punctFixGo p fuel rest
      | [] => c :: punctFixGo p fuel rest
    else c :: punctFixGo p fuel rest

def punctFix (p : Char) (l : List Char) : List Char :=
  punctFixGo p (l.length + 1) l

/-- `clean_ocr_text_advanced` (src/script.py lines 236-284): corrections,
whitespace collapse, blank-line collapse, strip, then colon and comma
spacing fixes, in that order. -/
def clean (l : List Char) : List Char :=
  if l.isEmpty then []
  else punctFix ',' (punctFix ':'
        (pyStrip (nlCollapse (wsCollapse (applyCorrections l)))))

/-- String-level wrapper for `clean`. -/
def cleanStr (s : String) : String := ⟨clean s.data⟩

/-- C3 counterexample: normalization is not idempotent.  On "Ma|e" the
character-level correction `|` → `I` produces the token "MaIe", which on a
second pass matches the word-level correction `Maie` → `Male`. -/
theorem claim_C3_counterexample :
    ¬ (clean (clean "Ma|e".data) = clean "Ma|e".data) := by decide

/-- C3 amended: normalization is deterministic and total but not idempotent;
a second application can apply a word-level correction enabled by the first
pass, as witnessed by clean "Ma|e" = "MaIe" while clean "MaIe" = "Male". -/
theorem claim_C3_amended :
    clean "Ma|e".data = "MaIe".data ∧
    clean "MaIe".data = "Male".data ∧
    clean (clean "Ma|e".data) = "Male".data := by decide

/-- C4: because the `\s+` → " " substitution runs first, every newline has
already been replaced by a space when the blank-line collapse runs, so the
normalized form of "a\n\nb" is "a b" and contains no line break at all. -/
theorem claim_C4_no_newline_survives :
    clean "a\n\nb".data = "a b".data ∧ '\n' ∉ clean "a\n\nb".data := by decide

/-! ## OCR configuration selector (`extract_text_from_image_multi_config`)

The OCR engine (pytesseract) is an external collaborator: each configuration
profile either raises (modelled as `none`, the `except` branch of the outer
`try`) or yields recognized text together with optional per-token confidence
data (`none` confidence data models the inner `except` branch, where the
score falls back to the text length).  The selection loop itself is the code
under verification. -/

/-- One OCR attempt: recognized text and, when `image_to_data` succeeded, the
list of per-token confidence values. -/
abbrev OcrAttempt := List Char × Option (List Int)

/-- The scalar quality score of one attempt: average of the positive
confidences when confidence data is available (0 when there are none),
otherwise the raw text length.  Python computes the average as a float; it is
modelled exactly as a rational. -/
def score (a : OcrAttempt) : ℚ :=
  match a.2 with
  | none => mkRat a.1.length 1
  | some confs =>
    match confs.filter (fun x => 0 < x) with
    | [] => 0
    | pos => mkRat pos.sum pos.length

/-- One iteration of the selection loop over a non-failing attempt:
`if avg_confidence > best_confidence: best_confidence, best_text = ...`. -/
def selStepP (best : List Char × ℚ) (a : OcrAttempt) : List Char × ℚ :=
  if best.2 < score a then (a.1, score a) else best

/-- One iteration over a possibly-failing attempt: a raised exception skips
the attempt entirely (`continue`). -/
def selStep (best : List Char × ℚ) (a : Option OcrAttempt) : List Char × ℚ :=
  match a with
  | none => best
  | some att => selStepP best att

/-- The selection loop of `extract_text_from_image_multi_config`
(src/script.py lines 196-234): starting from `best_text = ""`,
`best_confidence = 0`, fold the attempts and return the retained text. -/
def extractTextMulti (l : List (Option OcrAttempt)) : List Char :=
  (l.foldl selStep ([], 0)).1

/-- Failed attempts do not contribute to the fold. -/
theorem selFold_filterMap (l : List (Option OcrAttempt)) (acc : List Char × ℚ) :
    l.foldl selStep acc = (l.filterMap id).foldl selStepP acc := by
  induction l generalizing acc with
  | nil => rfl
  | cons h t ih =>
    cases h with
    | none => simpa [selStep] using ih acc
    | some a => simpa [selStep] using ih (selStepP acc a)

/-- Characterization of the selection fold: either no attempt strictly beats
the accumulator (which is then returned unchanged), or the fold returns the
first attempt attaining the strict maximum of the scores. -/
theorem selFoldP_spec (l : List OcrAttempt) (acc : List Char × ℚ) :
    ((∀ a ∈ l, score a ≤ acc.2) ∧ l.foldl selStepP acc = acc) ∨
    (∃ i a, l.get? i = some a ∧ acc.2 < score a ∧
      l.foldl selStepP acc = (a.1, score a) ∧
      (∀ j b, l.get? j = some b → score b ≤ score a) ∧
      (∀ j b, j < i → l.get? j = some b → score b < score a)) := by
  induction l generalizing acc with
  | nil => exact Or.inl ⟨by simp, rfl⟩
  | cons h t ih =>
    by_cases hlt : acc.2 < score h
    · -- the head strictly beats the accumulator and is selected now
      have hstep : selStepP acc h = (h.1, score h) := by simp [selStepP, hlt]
      rcases ih (h.1, score h) with ⟨hall, heq⟩ | ⟨i, a, hget, hgt, heq, hmax, hfirst⟩
      · refine Or.inr ⟨0, h, rfl, hlt, ?_, ?_, ?_⟩
        · simp only [List.foldl_cons, hstep]; exact heq
        · intro j b hj
          cases j with
          | zero => simp at hj; simp [hj]
          | succ j => exact hall b (by exact List.get?_mem hj)
        · intro j b hj; omega
      · refine Or.inr ⟨i + 1, a, by simpa using hget, lt_trans hlt hgt, ?_, ?_, ?_⟩
        · simp only [List.foldl_cons, hstep]; exact heq
        · intro j b hj
          cases j with
          | zero => simp at hj; subst hj; exact le_of_lt hgt
          | succ j => exact hmax j b (by simpa using hj)
        · intro j b hj hget'
          cases j with
          | zero => simp at hget'; subst hget'; exact hgt
          | succ j => exact hfirst j b (by omega) (by simpa using hget')
    · -- the head is skipped
      have hstep : selStepP acc h = acc := by simp [selStepP, hlt]
      rcases ih acc with ⟨hall, heq⟩ | ⟨i, a, hget, hgt, heq, hmax, hfirst⟩
      · refine Or.inl ⟨?_, ?_⟩
        · intro a ha
          rcases List.mem_cons.mp ha with rfl | ha
          · exact le_of_not_lt hlt
          · exact hall a ha
        · simp only [List.foldl_cons, hstep]; exact heq
      · refine Or.inr ⟨i + 1, a, by simpa using hget, hgt, ?_, ?_, ?_⟩
        · simp only [List.foldl_cons, hstep]; exact heq
        · intro j b hj
          cases j with
          | zero => simp at hj; subst hj; exact le_trans (le_of_not_lt hlt) (le_of_lt hgt)
          | succ j => exact hmax j b (by simpa using hj)
        · intro j b hj hget'
          cases j with
          | zero => simp at hget'; subst hget'; exact lt_of_le_of_lt (le_of_not_lt hlt) hgt
          | succ j => exact hfirst j b (by omega) (by simpa using hget')

/-- C5: whenever some non-failing attempt has a positive score, the selector
returns the text of the first attempt attaining the strictly highest score
(so ties keep the earlier, higher-priority profile). -/
theorem claim_C5_highest_score_selected (l : List (Option OcrAttempt))
    (hpos : ∃ a ∈ l.filterMap id, 0 < score a) :
    ∃ i a, (l.filterMap id).get? i = some a ∧ extractTextMulti l = a.1 ∧
      (∀ j b, (l.filterMap id).get? j = some b → score b ≤ score a) ∧
      (∀ j b, j < i → (l.filterMap id).get? j = some b → score b < score a) := by
  rcases selFoldP_spec (l.filterMap id) ([], 0) with ⟨hall, heq⟩ | ⟨i, a, hget, _, heq, hmax, hfirst⟩
  · rcases hpos with ⟨a, ha, hpos⟩
    exact absurd (hall a ha) (by simpa using not_le.mpr hpos)
  · exact ⟨i, a, hget, by simp [extractTextMulti, selFold_filterMap, heq], hmax, hfirst⟩

/-- Mocked OCR results whose scores are 10, 40 and 25. -/
def mockedAttempts : List (Option OcrAttempt) :=
  [some ("a".data, some [10]), some ("b".data, some [40]),
   some ("c".data, some [25])]

/-- C5 witness: with mocked scores 10, 40, 25 the text of the second attempt
is returned. -/
theorem claim_C5_witness :
    extractTextMulti mockedAttempts = "b".data ∧
    (∃ i a, (mockedAttempts.filterMap id).get? i = some a ∧
      extractTextMulti mockedAttempts = a.1) := by
  refine ⟨by decide, ?_⟩
  rcases claim_C5_highest_score_selected mockedAttempts
      ⟨(("a".data, some [10]) : OcrAttempt), by decide, by decide⟩
      with ⟨i, a, hget, heq, _, _⟩
  exact ⟨i, a, hget, heq⟩

/-- C6: a failing profile is excluded from scoring while the remaining
profiles are still attempted (the result only depends on the non-failing
attempts, in order), and if every profile fails the selector returns the
empty string instead of raising. -/
theorem claim_C6_failures_skipped :
    (∀ l : List (Option OcrAttempt),
        extractTextMulti l = extractTextMulti ((l.filterMap id).map some)) ∧
    (∀ l : List (Option OcrAttempt), (∀ a ∈ l, a = none) →
        extractTextMulti l = []) := by
  constructor
  · intro l
    simp [extractTextMulti, selFold_filterMap, List.filterMap_map]
  · intro l hnone
    have : l.filterMap id = [] := by
      apply List.filterMap_eq_nil_iff.mpr
      intro a ha; simp [hnone a ha]
    simp [extractTextMulti, selFold_filterMap, this]

/-- C6 witness: both parts applied to a concrete list of two failures. -/
theorem claim_C6_witness :
    extractTextMulti [(none : Option OcrAttempt), none] = [] :=
  claim_C6_failures_skipped.2 [none, none] (by decide)

/-- C10: the running best score starts at 0 and the comparison is strict, so
a zero-score attempt is never selected: the returned text is either empty or
comes from an attempt of strictly positive score; in particular if every
non-failing attempt scores 0 the selector returns the empty string even when
some attempt produced non-empty text. -/
theorem claim_C10_zero_score_never_selected :
    (∀ l : List (Option OcrAttempt), extractTextMulti l = [] ∨
      ∃ a ∈ l.filterMap id, 0 < score a ∧ extractTextMulti l = a.1) ∧
    (∀ l : List (Option OcrAttempt), (∀ a ∈ l.filterMap id, score a = 0) →
      extractTextMulti l = []) := by
  have main : ∀ l : List (Option OcrAttempt), extractTextMulti l = [] ∨
      ∃ a ∈ l.filterMap id, 0 < score a ∧ extractTextMulti l = a.1 := by
    intro l
    rcases selFoldP_spec (l.filterMap id) ([], 0) with ⟨_, heq⟩ | ⟨_, a, hget, hgt, heq, _, _⟩
    · exact Or.inl (by simp [extractTextMulti, selFold_filterMap, heq])
    · exact Or.inr ⟨a, List.get?_mem hget, by simpa using hgt,
        by simp [extractTextMulti, selFold_filterMap, heq]⟩
  refine ⟨main, fun l hzero => ?_⟩
  rcases main l with h | ⟨a, ha, hpos, _⟩
  · exact h
  · exact absurd (hzero a ha) (by simpa using ne_of_gt hpos)

/-- C10 witness: an attempt with non-empty text but no positive per-token
confidence scores 0 and is not selected. -/
theorem claim_C10_witness :
    score ("hello".data, some [0, -3]) = 0 ∧
    extractTextMulti [some ("hello".data, some [0, -3])] = [] := by
  refine ⟨by decide, ?_⟩
  exact claim_C10_zero_score_never_selected.2 [some ("hello".data, some [0, -3])]
    (by intro a ha; simp at ha; subst ha; decide)

/-! ## Record segmenter (`find_voter_records_flexible`) -/

/-- Length of the maximal prefix of `l` whose characters satisfy `p`. -/
def runLen (p : Char → Bool) (l : List Char) : Nat :=
  (l.takeWhile p).length

/-- Python slice `t[a:b]` for natural bounds (both ends clamped). -/
def slice (t : List Char) (a b : Nat) : List Char :=
  (t.take b).drop a

/-- Whether `l` has at least `k` characters and its first `k` are uppercase
ASCII letters (`[A-Z]{k}` without IGNORECASE). -/
def upTake (l : List Char) (k : Nat) : Bool :=
  (l.take k).length = k && (l.take k).all Char.isUpper

/-- Matcher for `/\d+` (a slash followed by a greedy run of at least one
digit); returns the number of characters consumed. -/
def slashDigits : List Char → Option Nat
  | c :: rest =>
    if c = '/' then
      let d := runLen Char.isDigit rest
      if d = 0 then none else some (1 + d)
    else none
  | [] => none

/-- One greedy alternative of `[A-Z]{2,4}/\d+/\d+/\d+` with the letter count
fixed to `k`. -/
def idPat1Try (l : List Char) (k : Nat) : Option Nat :=
  if upTake l k then
    match slashDigits (l.drop k) with
    | some a =>
      match slashDigits (l.drop (k + a)) with
      | some b =>
        match slashDigits (l.drop (k + a + b)) with
        | some c => some (k + a + b + c)
        | none => none
      | none => none
    | none => none
  else none

/-- Matcher for `[A-Z]{2,4}/\d+/\d+/\d+` at the head of `l` (greedy counted
repetition tries 4, then 3, then 2 letters; a shorter count can only succeed
when the next character is a slash). -/
def idPat1At (l : List Char) : Option Nat :=
  (idPat1Try l 4).orElse fun _ => (idPat1Try l 3).orElse fun _ => idPat1Try l 2

/-- Matcher for `[A-Z]{3}\d{7,10}` at the head of `l`. -/
def idPat2At (l : List Char) : Option Nat :=
  if upTake l 3 then
    let d := runLen Char.isDigit (l.drop 3)
    if 7 ≤ d then some (3 + min d 10) else none
  else none

/-- One alternative of `[A-Z]{2,4}\d{7,10}` with the letter count fixed. -/
def idPat3Try (l : List Char) (k : Nat) : Option Nat :=
  if upTake l k then
    let d := runLen Char.isDigit (l.drop k)
    if 7 ≤ d then some (k + min d 10) else none
  else none

/-- Matcher for `[A-Z]{2,4}\d{7,10}` at the head of `l`. -/
def idPat3At (l : List Char) : Option Nat :=
  (idPat3Try l 4).orElse fun _ => (idPat3Try l 3).orElse fun _ => idPat3Try l 2

/-- `re.finditer`: scan the text left to right, record the span of each
match, and resume after a match (non-overlapping matches). -/
def finditerGo (m : List Char → Option Nat) : Nat → Nat → List Char → List (Nat × Nat)
  | 0, _, _ => []
  | _ + 1, _, [] => []
  | fuel + 1, pos, c :: rest =>
    match m (c :: rest) with
    | some k => (pos, pos + k) :: finditerGo m fuel (pos + k) ((c :: rest).drop k)
    | none => finditerGo m fuel (pos + 1) rest

def finditer (m : List Char → Option Nat) (t : List Char) : List (Nat × Nat) :=
  finditerGo m (t.length + 1) 0 t

/-- Lexicographic comparison on spans, matching Python tuple sorting (the
third tuple component, the matched text, is determined by the span). -/
def spanLe (a b : Nat × Nat) : Bool :=
  a.1 < b.1 || (a.1 = b.1 && a.2 ≤ b.2)

def insertSpan (a : Nat × Nat) : List (Nat × Nat) → List (Nat × Nat)
  | [] => [a]
  | b :: rest => if spanLe a b then a :: b :: rest else b :: insertSpan a rest

def sortSpans (l : List (Nat × Nat)) : List (Nat × Nat) :=
  l.foldr insertSpan []

/-- All voter-identifier matches of the three identifier shapes, sorted by
position (`id_positions` in the source). -/
def idPositions (t : List Char) : List (Nat × Nat) :=
  sortSpans (finditer idPat1At t ++ finditer idPat2At t ++ finditer idPat3At t)

/-- Strategy 1 block construction: for each identifier occurrence the block
runs from 50 characters before its start (clamped) to the start of the next
occurrence, or to 1000 characters past its own start (clamped to the text
end) for the last occurrence; trimmed blocks of length at most 20 are
dropped. -/
def strat1Go (t : List Char) : List (Nat × Nat) → List (List Char)
  | [] => []
  | (s, _) :: rest =>
    let be := match rest with
      | (s2, _) :: _ => s2
      | [] => min t.length (s + 1000)
    let bt := pyStrip (slice t (s - 50) be)
    (if 20 < bt.length then [bt] else []) ++ strat1Go t rest

def strat1Blocks (t : List Char) : List (List Char) :=
  strat1Go t (idPositions t)

/-- Matcher for `Name\s*:` under IGNORECASE. -/
def nameColonAt (l : List Char) : Option Nat :=
  if ciStarts "Name".data l then
    let w := runLen pyWS (l.drop 4)
    match l.get? (4 + w) with
    | some ':' => some (4 + w + 1)
    | _ => none
  else none

/-- `re.split(pat, text)` without capture groups: the pieces of text between
consecutive non-overlapping matches. -/
def pySplitGo (m : List Char → Option Nat) : Nat → List Char → List Char → List (List Char)
  | 0, cur, l => [cur.reverse ++ l]
  | _ + 1, cur, [] => [cur.reverse]
  | fuel + 1, cur, c :: rest =>
    match m (c :: rest) with
    | some k => cur.reverse :: pySplitGo m fuel [] ((c :: rest).drop k)
    | none => pySplitGo m fuel (c :: cur) rest

def pySplit (m : List Char → Option Nat) (t : List Char) : List (List Char) :=
  pySplitGo m (t.length + 1) [] t

/-- Substring containment (Python `in` on strings). -/
def containsSub (needle : List Char) : List Char → Bool
  | [] => needle.isEmpty
  | c :: rest => needle.isPrefixOf (c :: rest) || containsSub needle rest

/-- Strategy 2: split on `Name\s*:`, skip the text before the first label,
rebuild `"Name: " + first 500 characters (stripped)` and keep chunks longer
than 30 characters containing one of the keywords age / gender / house. -/
def strat2Blocks (t : List Char) : List (List Char) :=
  match pySplit nameColonAt t with
  | [] => []
  | _ :: parts =>
    parts.filterMap fun part =>
      let chunk := "Name: ".data ++ pyStrip (part.take 500)
      if 30 < chunk.length ∧
          (containsSub "age".data (chunk.map lc) ∨
           containsSub "gender".data (chunk.map lc) ∨
           containsSub "house".data (chunk.map lc))
      then some chunk else none

/-- One alternative of `[A-Z]{2,4}[/\d]+` (under IGNORECASE any letter
matches `[A-Z]`) with the letter count fixed. -/
def serialBranch1Try (l : List Char) (k : Nat) : Option Nat :=
  if (l.take k).length = k ∧ (l.take k).all Char.isAlpha then
    let r := runLen (fun c => c == '/' || c.isDigit) (l.drop k)
    if r = 0 then none else some (k + r)
  else none

def serialBranch1 (l : List Char) : Option Nat :=
  (serialBranch1Try l 4).orElse fun _ =>
    (serialBranch1Try l 3).orElse fun _ => serialBranch1Try l 2

/-- Matcher for `(\d+)\s+([A-Z]{2,4}[/\d]+|Name\s*:)` (IGNORECASE): returns
the span length together with the two capture groups. -/
def serialPatAt (l : List Char) : Option (Nat × List Char × List Char) :=
  let d := runLen Char.isDigit l
  if d = 0 then none else
  let w := runLen pyWS (l.drop d)
  if w = 0 then none else
  let l2 := l.drop (d + w)
  match serialBranch1 l2 with
  | some k => some (d + w + k, l.take d, l2.take k)
  | none =>
    match nameColonAt l2 with
    | some k => some (d + w + k, l.take d, l2.take k)
    | none => none

/-- `re.split` with capture groups, as used by strategy 3: the result
interleaves the pieces between matches with the two captured groups of each
match. -/
def strat3PartsGo : Nat → List Char → List Char → List (List Char)
  | 0, cur, l => [cur.reverse ++ l]
  | _ + 1, cur, [] => [cur.reverse]
  | fuel + 1, cur, c :: rest =>
    match serialPatAt (c :: rest) with
    | some (k, g1, g2) =>
      cur.reverse :: g1 :: g2 :: strat3PartsGo fuel [] ((c :: rest).drop k)
    | none => strat3PartsGo fuel (c :: cur) rest

def strat3Parts (t : List Char) : List (List Char) :=
  strat3PartsGo (t.length + 1) [] t

/-- Strategy 3 reassembly: for every (serial, label, following content)
triple, rebuild `serial + " " + label + " " + content[:800]` (stripped) and
keep results longer than 30 characters. -/
def strat3Assemble : List (List Char) → List (List Char)
  | _ :: g1 :: g2 :: rest =>
    match rest with
    | piece :: _ =>
      let combined := pyStrip (g1 ++ [' '] ++ g2 ++ [' '] ++ piece.take 800)
      (if 30 < combined.length then [combined] else []) ++ strat3Assemble rest
    | [] => []
  | _ => []

def strat3Blocks (t : List Char) : List (List Char) :=
  strat3Assemble (strat3Parts t)

/-- `find_voter_records_flexible` (src/script.py lines 352-429): clean the
page text, then try the three segmentation strategies in priority order,
keeping the first non-empty result. -/
def findVoterRecordsFlexible (pageText : List Char) : List (List Char) :=
  let t := clean pageText
  let b1 := strat1Blocks t
  if b1.isEmpty then
    let b2 := strat2Blocks t
    if b2.isEmpty then strat3Blocks t else b2
  else b1

/-- A text in which the strategy-1 block of the second identifier occurrence
trims to exactly 20 characters. -/
def segBoundaryText : List Char := "ABC1234567 abcdefghiDEF1234567 tail tail tail!".data

/-- C8 counterexample: the first identifier block of `segBoundaryText` trims
to exactly 20 characters, yet it is discarded (the kept-block condition is
strictly greater than 20, not at least 20): the segmenter output consists of
the last block only. -/
theorem claim_C8_counterexample :
    (pyStrip (slice (clean segBoundaryText) 0 20)).length = 20 ∧
    pyStrip (slice (clean segBoundaryText) 0 20) ∉
      findVoterRecordsFlexible segBoundaryText ∧
    findVoterRecordsFlexible segBoundaryText = [clean segBoundaryText] := by
  decide

/-- The block spans described by the specification: 50 characters before each
identifier start (clamped to the text start) up to the next identifier start,
or 1000 characters past the start (clamped to the text end) for the last
occurrence. -/
def blockSpans (t : List Char) : List (Nat × Nat) → List (Nat × Nat)
  | [] => []
  | (s, _) :: rest =>
    (s - 50,
      match rest with
      | (s2, _) :: _ => s2
      | [] => min t.length (s + 1000)) :: blockSpans t rest

theorem strat1Go_eq_spanFilter (t : List Char) (ps : List (Nat × Nat)) :
    strat1Go t ps =
      ((blockSpans t ps).map fun sp => pyStrip (slice t sp.1 sp.2)).filter
        fun b => 20 < b.length := by
  induction ps with
  | nil => rfl
  | cons p rest ih =>
    obtain ⟨s, e⟩ := p
    cases rest with
    | nil =>
      by_cases h : 20 < (pyStrip (slice t (s - 50) (min t.length (s + 1000)))).length
      · simp [strat1Go, blockSpans, h]
      · simp [strat1Go, blockSpans, h]
    | cons q rest2 =>
      obtain ⟨s2, e2⟩ := q
      by_cases h : 20 < (pyStrip (slice t (s - 50) s2)).length
      · simpa [strat1Go, blockSpans, h] using ih
      · simpa [strat1Go, blockSpans, h] using ih

/-- C8 amended: for each identifier occurrence the block spans from 50
characters before its start (clamped) to the start of the next occurrence
(1000 characters past its own start, clamped to the text end, for the last
occurrence), and after trimming exactly the blocks of length at least 21 are
kept — a trimmed block of length 20 or less (not 19 or less) is discarded. -/
theorem claim_C8_amended (t : List Char) :
    strat1Blocks t =
      ((blockSpans t (idPositions t)).map fun sp => pyStrip (slice t sp.1 sp.2)).filter
        fun b => 20 < b.length :=
  strat1Go_eq_spanFilter t (idPositions t)

/-! ## Field extractor and record builder (`parse_voter_record_flexible`)

Each Python regular expression of the per-field cascades is translated into a
matcher that, applied to the suffix of the text starting at a candidate
position, returns the capture group of the match beginning there (or its
consumed length for the identifier shapes).  `re.search` is the scan over
candidate positions from the left.  Matchers follow Python backtracking:
greedy quantifiers try longest first, lazy ones shortest first, alternatives
in written order. -/

/-- Characters matched by `[A-Za-z\s\.]`. -/
def classNameChars (c : Char) : Bool := c.isAlpha || pyWS c || c == '.'

/-- Characters matched by `[A-Za-z0-9/\-\s]`. -/
def classHouseChars (c : Char) : Bool :=
  c.isAlpha || c.isDigit || c == '/' || c == '-' || pyWS c

/-- Characters matched by `[A-Za-z0-9/\-]`. -/
def classHouse2 (c : Char) : Bool :=
  c.isAlpha || c.isDigit || c == '/' || c == '-'

/-- `$` without MULTILINE: end of text, or just before a final newline. -/
def dollarNoM (u : List Char) : Bool := u.isEmpty || u == ['\n']

/-- `\s*$` with MULTILINE: some prefix of the whitespace run ends the text or
is followed by a newline. -/
def sfxWsDollarM : List Char → Bool
  | [] => true
  | c :: rest => if c = '\n' then true else if pyWS c then sfxWsDollarM rest else false

/-- `\s*$` without MULTILINE. -/
def sfxWsDollarNoM (u : List Char) : Bool :=
  dollarNoM u ||
    (match u with
     | c :: rest => pyWS c && sfxWsDollarNoM rest
     | [] => false)

/-- Lazy counted class repetition `[...]{min,}?` followed by a suffix test:
consume the minimum number of class characters, then grow one character at a
time, succeeding at the first length whose remainder satisfies `sfx`.  `acc`
holds the reversed characters captured so far. -/
def expandLazyN (cls : Char → Bool) (sfx : List Char → Bool) :
    Nat → Nat → List Char → List Char → Option (List Char)
  | 0, _, _, _ => none
  | _ + 1, _, _, [] => none
  | fuel + 1, need, acc, c :: rest =>
    if cls c then
      if need ≤ 1 then
        if sfx rest then some ((c :: acc).reverse)
        else expandLazyN cls sfx fuel 0 (c :: acc) rest
      else expandLazyN cls sfx fuel (need - 1) (c :: acc) rest
    else none

/-- Greedy `\s*` immediately before a lazy class capture whose class contains
whitespace: the capture preferentially starts after the whole whitespace run,
backtracking one whitespace character at a time into the capture. -/
def tryStarts (cls : Char → Bool) (sfx : List Char → Bool) (l0 : List Char) :
    Nat → Option (List Char)
  | 0 => expandLazyN cls sfx (l0.length + 1) 1 [] l0
  | k + 1 =>
    (expandLazyN cls sfx (l0.length + 1) 1 [] (l0.drop (k + 1))).orElse fun _ =>
      tryStarts cls sfx l0 k

/-- `re.search` for a matcher returning a capture group: scan positions left
to right. -/
def reSearchG (m : List Char → Option (List Char)) :
    Nat → List Char → Option (List Char)
  | 0, _ => none
  | _ + 1, [] => none
  | fuel + 1, c :: rest =>
    match m (c :: rest) with
    | some g => some g
    | none => reSearchG m fuel rest

/-- `re.search` for a matcher that needs the preceding character (patterns
anchored with `(?:^|\s)`). -/
def reSearchCtx (m : Option Char → List Char → Option (List Char)) :
    Nat → Option Char → List Char → Option (List Char)
  | 0, _, _ => none
  | _ + 1, _, [] => none
  | fuel + 1, prev, c :: rest =>
    match m prev (c :: rest) with
    | some g => some g
    | none => reSearchCtx m fuel (some c) rest

/-- `re.search` for a whole-match (span-length) matcher, returning the
matched characters. -/
def reSearchTake (m : List Char → Option Nat) :
    Nat → List Char → Option (List Char)
  | 0, _ => none
  | _ + 1, [] => none
  | fuel + 1, c :: rest =>
    match m (c :: rest) with
    | some k => some ((c :: rest).take k)
    | none => reSearchTake m fuel rest

/-- Suffix `(?:\s*(?:Father|Husband|Other|Age|House|Gender))` of the first
name pattern. -/
def nameSfx1 (u : List Char) : Bool :=
  let v := u.drop (runLen pyWS u)
  ciStarts "Father".data v || ciStarts "Husband".data v ||
    ciStarts "Other".data v || ciStarts "Age".data v ||
    ciStarts "House".data v || ciStarts "Gender".data v

/-- Suffix `(?:\s*(?:House|Age|Gender|$))` (MULTILINE) of the relation
patterns. -/
def relSfx (u : List Char) : Bool :=
  (let v := u.drop (runLen pyWS u)
   ciStarts "House".data v || ciStarts "Age".data v || ciStarts "Gender".data v) ||
  sfxWsDollarM u

/-- Suffix `(?:\s*(?:Age|Gender|Photo|$))` (MULTILINE) of the first house
pattern. -/
def houseSfx1 (u : List Char) : Bool :=
  (let v := u.drop (runLen pyWS u)
   ciStarts "Age".data v || ciStarts "Gender".data v || ciStarts "Photo".data v) ||
  sfxWsDollarM u

/-- `Name\s*:\s*([A-Za-z\s\.]+?)(?:\s*(?:Father|Husband|Other|Age|House|Gender))`. -/
def name1At (l : List Char) : Option (List Char) :=
  if ciStarts "Name".data l then
    let w1 := runLen pyWS (l.drop 4)
    match l.drop (4 + w1) with
    | ':' :: l0 => tryStarts classNameChars nameSfx1 l0 (runLen pyWS l0)
    | _ => none
  else none

/-- `Name\s*:\s*([A-Za-z\s\.]+?)(?:\s*$)` (MULTILINE). -/
def name2At (l : List Char) : Option (List Char) :=
  if ciStarts "Name".data l then
    let w1 := runLen pyWS (l.drop 4)
    match l.drop (4 + w1) with
    | ':' :: l0 => tryStarts classNameChars sfxWsDollarM l0 (runLen pyWS l0)
    | _ => none
  else none

/-- Word lengths `n, n-1, ..., 2`, the greedy order for `[A-Z][a-z]+` under
IGNORECASE (at least two letters, longest first). -/
def descLens : Nat → List Nat
  | 0 => []
  | 1 => []
  | n + 2 => (n + 2) :: descLens (n + 1)

/-- The relationship markers `(?:Father|Husband|w/o|s/o)` of the third name
pattern. -/
def relMarker (l : List Char) : Bool :=
  ciStarts "Father".data l || ciStarts "Husband".data l ||
    ciStarts "w/o".data l || ciStarts "s/o".data l

/-- Backtracking continuation of `([A-Z][a-z]+(?:\s+[A-Z][a-z]+)*)\s*marker`
after some words have been captured into `acc`: greedily try to extend the
star with a further `\s+[A-Z][a-z]+` word (longest word first), otherwise
close the group and require `\s*` followed by a relationship marker. -/
def name3Rest : Nat → List Char → List Char → Option (List Char)
  | 0, _, _ => none
  | fuel + 1, acc, l =>
    let w := runLen pyWS l
    let l2 := l.drop w
    let ext :=
      if 1 ≤ w then
        (descLens (runLen Char.isAlpha l2)).findSome? fun len =>
          name3Rest fuel (acc ++ l.take w ++ l2.take len) (l2.drop len)
      else none
    match ext with
    | some g => some g
    | none => if relMarker l2 then some acc else none

/-- Group of the third name pattern starting at `l` (first word then star). -/
def name3Start (l : List Char) : Option (List Char) :=
  (descLens (runLen Char.isAlpha l)).findSome? fun len =>
    name3Rest (l.length + 1) (l.take len) (l.drop len)

/-- `(?:^|\s)([A-Z][a-z]+(?:\s+[A-Z][a-z]+)*)\s*(?:Father|Husband|w/o|s/o)`
(IGNORECASE and MULTILINE, so `^` also matches after a newline and the letter
classes match any letter). -/
def name3At (prev : Option Char) (l : List Char) : Option (List Char) :=
  (if prev.isNone || prev == some '\n' then name3Start l else none).orElse fun _ =>
    match l with
    | c :: rest => if pyWS c then name3Start rest else none
    | [] => none

/-- `\s*Name\s*:\s*(group)` continuation of the first relation pattern. -/
def rel1Cont (l : List Char) : Option (List Char) :=
  let w := runLen pyWS l
  if ciStarts "Name".data (l.drop w) then
    let l1 := l.drop (w + 4)
    let w2 := runLen pyWS l1
    match l1.drop w2 with
    | ':' :: l0 => tryStarts classNameChars relSfx l0 (runLen pyWS l0)
    | _ => none
  else none

/-- A relation keyword prefix followed by the greedy optional `(?:s?)?`. -/
def relPfxTry (p : List Char) (cont : List Char → Option (List Char))
    (l : List Char) : Option (List Char) :=
  if ciStarts p l then
    let l1 := l.drop p.length
    match l1 with
    | c :: rest =>
      if ciEq c 's' then (cont rest).orElse fun _ => cont l1 else cont l1
    | [] => cont l1
  else none

/-- `(?:Father|Husband|Other)(?:s?)?\s*Name\s*:\s*([A-Za-z\s\.]+?)(?:\s*(?:House|Age|Gender|$))`. -/
def rel1At (l : List Char) : Option (List Char) :=
  (relPfxTry "Father".data rel1Cont l).orElse fun _ =>
    (relPfxTry "Husband".data rel1Cont l).orElse fun _ =>
      relPfxTry "Other".data rel1Cont l

/-- `(?:w/o|s/o|d/o)\s*([A-Za-z\s\.]+?)(?:\s*(?:House|Age|Gender|$))`. -/
def rel2At (l : List Char) : Option (List Char) :=
  if ciStarts "w/o".data l || ciStarts "s/o".data l || ciStarts "d/o".data l then
    tryStarts classNameChars relSfx (l.drop 3) (runLen pyWS (l.drop 3))
  else none

/-- `\s*:\s*(group)` continuation of the third relation pattern. -/
def rel3Cont (l : List Char) : Option (List Char) :=
  let w := runLen pyWS l
  match l.drop w with
  | ':' :: l0 => tryStarts classNameChars relSfx l0 (runLen pyWS l0)
  | _ => none

/-- `(?:Father|Husband)\s*:\s*([A-Za-z\s\.]+?)(?:\s*(?:House|Age|Gender|$))`. -/
def rel3At (l : List Char) : Option (List Char) :=
  if ciStarts "Father".data l then rel3Cont (l.drop 6)
  else if ciStarts "Husband".data l then rel3Cont (l.drop 7)
  else none

/-- `Age\s*:\s*(\d+)`. -/
def age1At (l : List Char) : Option (List Char) :=
  if ciStarts "Age".data l then
    let w := runLen pyWS (l.drop 3)
    match l.drop (3 + w) with
    | ':' :: l0 =>
      let w2 := runLen pyWS l0
      let d := runLen Char.isDigit (l0.drop w2)
      if 1 ≤ d then some ((l0.drop w2).take d) else none
    | _ => none
  else none

/-- `Age\s+(\d+)`. -/
def age2At (l : List Char) : Option (List Char) :=
  if ciStarts "Age".data l then
    let w := runLen pyWS (l.drop 3)
    if 1 ≤ w then
      let d := runLen Char.isDigit (l.drop (3 + w))
      if 1 ≤ d then some ((l.drop (3 + w)).take d) else none
    else none
  else none

/-- `(\d+)\s*years?`. -/
def age3At (l : List Char) : Option (List Char) :=
  let d := runLen Char.isDigit l
  if d = 0 then none
  else
    let w := runLen pyWS (l.drop d)
    if ciStarts "year".data (l.drop (d + w)) then some (l.take d) else none

/-- `(\d{2})\s*(?:Gender|Male|Female)`. -/
def age4At (l : List Char) : Option (List Char) :=
  match l with
  | a :: b :: rest =>
    if a.isDigit && b.isDigit then
      let v := rest.drop (runLen pyWS rest)
      if ciStarts "Gender".data v || ciStarts "Male".data v ||
          ciStarts "Female".data v then some [a, b] else none
    else none
  | _ => none

def digitsToNat (ds : List Char) : Nat :=
  ds.foldl (fun n c => n * 10 + (c.toNat - 48)) 0

/-- The age cascade: first pattern whose matched integer lies in [18, 120]
wins; a match outside the range falls through to the next pattern. -/
def firstValidAge : List (Option (List Char)) → Option Nat
  | [] => none
  | none :: rest => firstValidAge rest
  | some ds :: rest =>
    let n := digitsToNat ds
    if 18 ≤ n ∧ n ≤ 120 then some n else firstValidAge rest

/-- Suffix `\s*(?:$|\s)` of the bare gender patterns (no MULTILINE). -/
def sfxG (u : List Char) : Bool :=
  1 ≤ runLen pyWS u || dollarNoM u

/-- `Gender\s*:\s*(Male|Female|Third\s*Gender)` (alternatives in written
order). -/
def gender1At (l : List Char) : Option (List Char) :=
  if ciStarts "Gender".data l then
    let w := runLen pyWS (l.drop 6)
    match l.drop (6 + w) with
    | ':' :: l0 =>
      let w2 := runLen pyWS l0
      let v := l0.drop w2
      if ciStarts "Male".data v then some (v.take 4)
      else if ciStarts "Female".data v then some (v.take 6)
      else if ciStarts "Third".data v then
        let w3 := runLen pyWS (v.drop 5)
        if ciStarts "Gender".data (v.drop (5 + w3)) then
          some (v.take (5 + w3 + 6))
        else none
      else none
    | _ => none
  else none

/-- `(Male|Female)\s*(?:$|\s)`. -/
def gender2At (l : List Char) : Option (List Char) :=
  if ciStarts "Male".data l then
    if sfxG (l.drop 4) then some (l.take 4) else none
  else if ciStarts "Female".data l then
    if sfxG (l.drop 6) then some (l.take 6) else none
  else none

/-- `(?:^|\s)(M|F)\s*(?:$|\s)` (no MULTILINE, so `^` is only the start of the
text). -/
def gender3At (prev : Option Char) (l : List Char) : Option (List Char) :=
  let core : List Char → Option (List Char) := fun u =>
    match u with
    | c :: rest =>
      if (ciEq c 'M' || ciEq c 'F') && sfxG rest then some [c] else none
    | [] => none
  (if prev.isNone then core l else none).orElse fun _ =>
    match l with
    | c :: rest => if pyWS c then core rest else none
    | [] => none

/-- Normalisation of a matched gender token, exactly as in the source:
`'male' in gender_text or gender_text == 'm'` is checked first, then
`'female' in gender_text or gender_text == 'f'`, else the third code. -/
def genderCode (g : List Char) : List Char :=
  let gl := g.map lc
  if containsSub "male".data gl || gl == "m".data then "M".data
  else if containsSub "female".data gl || gl == "f".data then "F".data
  else "T".data

/-- `House\s*(?:Number)?\s*:\s*([A-Za-z0-9/\-\s]+?)(?:\s*(?:Age|Gender|Photo|$))`. -/
def house1At (l : List Char) : Option (List Char) :=
  if ciStarts "House".data l then
    let w := runLen pyWS (l.drop 5)
    let l1 := l.drop (5 + w)
    let tryAt : List Char → Option (List Char) := fun u =>
      let w2 := runLen pyWS u
      match u.drop w2 with
      | ':' :: l0 => tryStarts classHouseChars houseSfx1 l0 (runLen pyWS l0)
      | _ => none
    if ciStarts "Number".data l1 then
      (tryAt (l1.drop 6)).orElse fun _ => tryAt l1
    else tryAt l1
  else none

/-- Greedy `{1,20}` repetition of the second house pattern: longest capture
first, suffix `\s*(?:Age|Gender)`. -/
def h2Lens (u : List Char) : Nat → Option (List Char)
  | 0 => none
  | k + 1 =>
    let rest := u.drop (k + 1)
    let v := rest.drop (runLen pyWS rest)
    if ciStarts "Age".data v || ciStarts "Gender".data v then some (u.take (k + 1))
    else h2Lens u k

/-- `(?:^|\s)([A-Za-z0-9/\-]{1,20})\s*(?:Age|Gender)` (MULTILINE). -/
def house2At (prev : Option Char) (l : List Char) : Option (List Char) :=
  let core : List Char → Option (List Char) := fun u =>
    h2Lens u (min 20 (runLen classHouse2 u))
  (if prev.isNone || prev == some '\n' then core l else none).orElse fun _ =>
    match l with
    | c :: rest => if pyWS c then core rest else none
    | [] => none

/-- `(?:Address|House)\s*:\s*([A-Za-z0-9/\-\s]+?)(?:\s*$)` (MULTILINE). -/
def house3At (l : List Char) : Option (List Char) :=
  let cont : List Char → Option (List Char) := fun l1 =>
    let w := runLen pyWS l1
    match l1.drop w with
    | ':' :: l0 => tryStarts classHouseChars sfxWsDollarM l0 (runLen pyWS l0)
    | _ => none
  if ciStarts "Address".data l then cont (l.drop 7)
  else if ciStarts "House".data l then cont (l.drop 5)
  else none

/-- Name / relation validation: stripped candidate of length 2 to 50 with no
digit. -/
def nameValid (n : List Char) : Bool :=
  2 ≤ n.length && n.length ≤ 50 && !(n.any Char.isDigit)

/-- Cascade with the name validation rule: an invalid candidate falls through
to the next pattern. -/
def nameCascade : List (Option (List Char)) → Option (List Char)
  | [] => none
  | none :: rest => nameCascade rest
  | some g :: rest =>
    let n := pyStrip g
    if nameValid n then some n else nameCascade rest

/-- Cascade with the house validation rule (stripped length at most 30). -/
def houseCascade : List (Option (List Char)) → Option (List Char)
  | [] => none
  | none :: rest => houseCascade rest
  | some g :: rest =>
    let h := pyStrip g
    if h.length ≤ 30 then some h else houseCascade rest

/-- First successful match (cascades that stop unconditionally on a match). -/
def firstSomeL : List (Option (List Char)) → Option (List Char)
  | [] => none
  | none :: rest => firstSomeL rest
  | some g :: _ => some g

/-- `^(\d+)\s+`: a serial number at the very start of the block. -/
def serialGroup (t : List Char) : Option (List Char) :=
  let d := runLen Char.isDigit t
  if 1 ≤ d ∧ 1 ≤ runLen pyWS (t.drop d) then some (t.take d) else none

/-- `categorize_age` (src/script.py lines 573-582). -/
def categorizeAge (age : Nat) : List Char :=
  if age < 18 then "Under 18".data
  else if age ≤ 29 then "18-29".data
  else if age ≤ 45 then "30-45".data
  else "45+".data

/-- The `state_mappings` table of `determine_region`, in source order. -/
def stateMappings : List (List Char × List (List Char)) :=
  [("west bengal", ["hooghly", "kolkata", "howrah", "north 24 parganas",
      "south 24 parganas", "darjeeling"]),
   ("uttar pradesh", ["agra", "lucknow", "kanpur", "allahabad", "varanasi",
      "meerut", "ghaziabad"]),
   ("maharashtra", ["mumbai", "pune", "nagpur", "thane", "nashik"]),
   ("gujarat", ["ahmedabad", "surat", "vadodara", "rajkot"]),
   ("rajasthan", ["jaipur", "jodhpur", "udaipur", "bikaner"]),
   ("bihar", ["patna", "gaya", "muzaffarpur", "bhagalpur"]),
   ("odisha", ["bhubaneswar", "cuttack", "berhampur", "sambalpur"])].map
    (fun p => (p.1.data, p.2.map String.data))

/-- ASCII upper-casing. -/
def ucChar (c : Char) : Char :=
  if 'a' ≤ c ∧ c ≤ 'z' then Char.ofNat (c.toNat - 32) else c

/-- Python `str.title()` on ASCII text: a letter is upper-cased after a
non-letter and lower-cased otherwise. -/
def titleGo : Bool → List Char → List Char
  | _, [] => []
  | prevAlpha, c :: rest =>
    (if c.isAlpha then (if prevAlpha then lc c else ucChar c) else c) ::
      titleGo c.isAlpha rest

def pyTitle (l : List Char) : List Char := titleGo false l

/-- `determine_region` (src/script.py lines 584-606). -/
def determineRegion (district : List Char) : List Char :=
  if district.isEmpty then []
  else
    let dl := district.map lc
    match stateMappings.find? (fun p => p.2.any fun d => containsSub d dl) with
    | some p => pyTitle p.1
    | none => district

/-- Document-level metadata: the optional header fields that
`extract_metadata_flexible` may populate. -/
structure Metadata where
  lokSabhaNo : Option (List Char)
  lokSabhaName : Option (List Char)
  vidhanNo : Option (List Char)
  vidhanName : Option (List Char)
  partNo : Option (List Char)
  district : Option (List Char)
  subdivision : Option (List Char)
  tehsil : Option (List Char)
  blockName : Option (List Char)
  pinCode : Option (List Char)
deriving DecidableEq

def emptyMetadata : Metadata :=
  ⟨none, none, none, none, none, none, none, none, none, none⟩

/-- The voter record: the fields of the `voter_data` dict, in source order. -/
structure VoterData where
  lokSabhaNo : List Char
  vidhanNo : List Char
  partNo : List Char
  vidhanName : List Char
  grampanchayetName : List Char
  wardNoName : List Char
  tehsilBlockName : List Char
  region : List Char
  division : List Char
  district : List Char
  epic : List Char
  serialNo : List Char
  name : List Char
  fatherHusbandName : List Char
  houseNo : List Char
  age : Nat
  gender : List Char
  religion : List Char
  caste : List Char
  ageGroup : List Char
  familySize : List Char
deriving DecidableEq

/-- `parse_voter_record_flexible` (src/script.py lines 431-571): clean the
block, run every per-field cascade, and return the record only when the name
is non-empty and the validated age is positive. -/
def parseVoterRecordFlexible (recordText : List Char) (recordIndex : Nat)
    (md : Metadata) : Option VoterData :=
  let ct := clean recordText
  let fuel := ct.length + 1
  let epicV := (reSearchTake idPat1At fuel ct).orElse fun _ =>
    (reSearchTake idPat2At fuel ct).orElse fun _ => reSearchTake idPat3At fuel ct
  let serialV := match serialGroup ct with
    | some ds => ds
    | none => (toString recordIndex).data
  let nameV := nameCascade
    [reSearchG name1At fuel ct, reSearchG name2At fuel ct,
     reSearchCtx name3At fuel none ct]
  let relV := nameCascade
    [reSearchG rel1At fuel ct, reSearchG rel2At fuel ct, reSearchG rel3At fuel ct]
  let ageOpt := firstValidAge
    [reSearchG age1At fuel ct, reSearchG age2At fuel ct,
     reSearchG age3At fuel ct, reSearchG age4At fuel ct]
  let genderV := match firstSomeL
      [reSearchG gender1At fuel ct, reSearchG gender2At fuel ct,
       reSearchCtx gender3At fuel none ct] with
    | some g => genderCode g
    | none => []
  let houseV := houseCascade
    [reSearchG house1At fuel ct, reSearchCtx house2At fuel none ct,
     reSearchG house3At fuel ct]
  let vd : VoterData :=
    ⟨md.lokSabhaNo.getD [],
     md.vidhanNo.getD [],
     md.partNo.getD [],
     md.vidhanName.getD [],
     [],
     [],
     (md.tehsil.orElse fun _ => md.subdivision).getD [],
     determineRegion (md.district.getD []),
     md.subdivision.getD [],
     md.district.getD [],
     epicV.getD [],
     serialV,
     nameV.getD [],
     relV.getD [],
     houseV.getD [],
     ageOpt.getD 0,
     genderV,
     [],
     [],
     (match ageOpt with
      | some n => categorizeAge n
      | none => []),
     []⟩
  if vd.name ≠ [] ∧ 0 < vd.age then some vd else none

/-- The age cascade only ever validates an integer in [18, 120]. -/
theorem firstValidAge_range (L : List (Option (List Char))) (n : Nat)
    (h : firstValidAge L = some n) : 18 ≤ n ∧ n ≤ 120 := by
  induction L with
  | nil => simp [firstValidAge] at h
  | cons o rest ih =>
    cases o with
    | none => exact ih (by simpa [firstValidAge] using h)
    | some ds =>
      by_cases hr : 18 ≤ digitsToNat ds ∧ digitsToNat ds ≤ 120
      · simp [firstValidAge, hr] at h; omega
      · exact ih (by simpa [firstValidAge, hr] using h)

/-- The name cascade only ever accepts a non-empty candidate. -/
theorem nameCascade_nonempty (L : List (Option (List Char))) (n : List Char)
    (h : nameCascade L = some n) : n ≠ [] := by
  induction L with
  | nil => simp [nameCascade] at h
  | cons o rest ih =>
    cases o with
    | none => exact ih (by simpa [nameCascade] using h)
    | some g =>
      by_cases hv : nameValid (pyStrip g) = true
      · simp [nameCascade, hv] at h
        subst h
        intro habs
        simp [nameValid, habs] at hv
      · exact ih (by simpa [nameCascade, hv] using h)

/-- C1: the record builder returns no record, or a record whose name is
non-empty and whose age lies in [18, 120]; no returned record has age 0 or
an empty name. -/
theorem claim_C1_record_invariant (block : List Char) (idx : Nat) (md : Metadata) :
    parseVoterRecordFlexible block idx md = none ∨
    ∃ r, parseVoterRecordFlexible block idx md = some r ∧
      r.name ≠ [] ∧ 18 ≤ r.age ∧ r.age ≤ 120 := by
  unfold parseVoterRecordFlexible
  simp only []
  split
  · next hcond =>
    refine Or.inr ⟨_, rfl, hcond.1, ?_⟩
    have hage := hcond.2
    simp only [] at hage ⊢
    rcases hcase : firstValidAge
        [reSearchG age1At (clean block).length.succ (clean block),
         reSearchG age2At (clean block).length.succ (clean block),
         reSearchG age3At (clean block).length.succ (clean block),
         reSearchG age4At (clean block).length.succ (clean block)] with _ | n
    · rw [hcase] at hage
      simp at hage
    · simpa using firstValidAge_range _ n hcase
  · exact Or.inl rfl

/-- The example block of the specification. -/
def exampleBlock : List Char :=
  "12 AB1234567 Name: Jane Roe Age: 34 Gender: Female House: 12A".data

/-- C2: the gender normalisation maps "Male" to "M" and "Third Gender" to
"T", but a matched "Female" token is also mapped to "M", because the
substring test `'male' in gender_text` is checked before the female branch;
consequently the record built from the example block carries gender "M"
rather than the female code. -/
theorem claim_C2_female_gets_male_code :
    genderCode "Male".data = "M".data ∧
    genderCode "Third Gender".data = "T".data ∧
    genderCode "Female".data = "M".data ∧
    parseVoterRecordFlexible exampleBlock 1 emptyMetadata =
      some ⟨[], [], [], [], [], [], [], [], [], [],
        "AB1234567".data, "12".data, "Jane Roe".data, [], "12A".data,
        34, "M".data, [], [], "30-45".data, []⟩ := by
  refine ⟨by decide, by decide, by decide, by decide⟩

/-! ## Metadata extractor (`extract_metadata_flexible`) -/

/-- Dash class `[-–—]` (hyphen, en dash, em dash). -/
def dashC (c : Char) : Bool := c == '-' || c == '–' || c == '—'

/-- Characters matched by `[A-Z\s\(\)]` under IGNORECASE. -/
def classConst (c : Char) : Bool := c.isAlpha || pyWS c || c == '(' || c == ')'

/-- Characters matched by `[A-Z\s]` under IGNORECASE. -/
def classLW (c : Char) : Bool := c.isAlpha || pyWS c

/-- Lazy `.*?` (DOTALL): try the continuation at each position from the
current one, moving right one character at a time. -/
def scanMin {α : Type} (cont : List Char → Option α) : Nat → List Char → Option α
  | 0, _ => none
  | fuel + 1, l =>
    match cont l with
    | some r => some r
    | none =>
      match l with
      | [] => none
      | _ :: rest => scanMin cont fuel rest

/-- Greedy lengths `n, n-1, ..., 1` for `\d+` backtracking. -/
def descLens1 : Nat → List Nat
  | 0 => []
  | n + 1 => (n + 1) :: descLens1 n

/-- `re.search` for a matcher returning a pair of capture groups. -/
def reSearchP (m : List Char → Option (List Char × List Char)) :
    Nat → List Char → Option (List Char × List Char)
  | 0, _ => none
  | _ + 1, [] => none
  | fuel + 1, c :: rest =>
    match m (c :: rest) with
    | some p => some p
    | none => reSearchP m fuel rest

/-- Suffix `(?:Part|GENERAL|$)` (no MULTILINE). -/
def constGrp2Sfx (u : List Char) : Bool :=
  ciStarts "Part".data u || ciStarts "GENERAL".data u || dollarNoM u

/-- `([A-Z][A-Z\s\(\)]+?)(?:Part|GENERAL|$)`: one letter then a lazy class
repetition closed by the suffix. -/
def constGrp2 (l : List Char) : Option (List Char) :=
  match l with
  | c :: rest =>
    if c.isAlpha then
      expandLazyN classConst constGrp2Sfx (rest.length + 1) 1 [c] rest
    else none
  | [] => none

/-- `([A-Z][A-Z\s\(\)]{5,}?)(?:Part|GENERAL|$)` of the third constituency
pattern. -/
def const3Grp2 (l : List Char) : Option (List Char) :=
  match l with
  | c :: rest =>
    if c.isAlpha then
      expandLazyN classConst constGrp2Sfx (rest.length + 1) 5 [c] rest
    else none
  | [] => none

/-- Suffix `(?:\s|$)` of the fourth constituency pattern. -/
def const4Sfx (u : List Char) : Bool :=
  (match u with
   | c :: _ => pyWS c
   | [] => false) || dollarNoM u

/-- `([A-Z\s]{8,}?)(?:\s|$)` of the fourth constituency pattern. -/
def const4Grp2 (l : List Char) : Option (List Char) :=
  expandLazyN classLW const4Sfx (l.length + 1) 8 [] l

/-- `([A-Z][A-Z\s\(\)]+)`: one letter then a greedy class repetition of at
least one character (parliamentary patterns, nothing follows the group). -/
def parlGrp2 (l : List Char) : Option (List Char) :=
  match l with
  | c :: rest =>
    if c.isAlpha then
      let run := rest.takeWhile classConst
      if run.isEmpty then none else some (c :: run)
    else none
  | [] => none

/-- `[-–—]\s*` followed by a group-2 matcher. -/
def metaAfterDigits (g2m : List Char → Option (List Char)) (g1 : List Char)
    (l3 : List Char) : Option (List Char × List Char) :=
  scanMin
    (fun u =>
      match u with
      | c :: rest =>
        if dashC c then
          (g2m (rest.drop (runLen pyWS rest))).map fun g2 => (g1, g2)
        else none
      | [] => none)
    (l3.length + 1) l3

/-- `(\d+)` (greedy, with backtracking) followed by `.*?[-–—]\s*` and a
group-2 matcher. -/
def metaDigits (g2m : List Char → Option (List Char)) (l2 : List Char) :
    Option (List Char × List Char) :=
  (descLens1 (runLen Char.isDigit l2)).findSome? fun d =>
    metaAfterDigits g2m (l2.take d) (l2.drop d)

/-- `.*?(\d+).*?[-–—]\s*(group2)`: the common tail of the constituency and
parliamentary patterns (DOTALL, so `.` also matches newlines). -/
def metaTail (g2m : List Char → Option (List Char)) (l : List Char) :
    Option (List Char × List Char) :=
  scanMin
    (fun u => if 1 ≤ runLen Char.isDigit u then metaDigits g2m u else none)
    (l.length + 1) l

/-- `Assembly\s+Constituency.*?(\d+).*?[-–—]\s*([A-Z][A-Z\s\(\)]+?)(?:Part|GENERAL|$)`. -/
def const1At (l : List Char) : Option (List Char × List Char) :=
  if ciStarts "Assembly".data l then
    let w := runLen pyWS (l.drop 8)
    if 1 ≤ w ∧ ciStarts "Constituency".data (l.drop (8 + w)) then
      metaTail constGrp2 (l.drop (8 + w + 12))
    else none
  else none

/-- `Constituency.*?(\d+).*?[-–—]\s*([A-Z][A-Z\s\(\)]+?)(?:Part|GENERAL|$)`. -/
def const2At (l : List Char) : Option (List Char × List Char) :=
  if ciStarts "Constituency".data l then metaTail constGrp2 (l.drop 12)
  else none

/-- `(\d{2,3})\s*[-–—]\s*([A-Z][A-Z\s\(\)]{5,}?)(?:Part|GENERAL|$)`. -/
def const3At (l : List Char) : Option (List Char × List Char) :=
  let tryK : Nat → Option (List Char × List Char) := fun k =>
    if (l.take k).length = k ∧ (l.take k).all Char.isDigit then
      let l1 := l.drop k
      match l1.drop (runLen pyWS l1) with
      | c :: rest =>
        if dashC c then
          (const3Grp2 (rest.drop (runLen pyWS rest))).map fun g2 => (l.take k, g2)
        else none
      | [] => none
    else none
  (tryK 3).orElse fun _ => tryK 2

/-- The greedy `\s*` after the dash of the fourth constituency pattern,
immediately before the whitespace-inclusive lazy capture `[A-Z\s]{8,}?`: the
capture is tried after the whole whitespace run first, backtracking one
whitespace character at a time into the capture. -/
def const4Starts (l0 : List Char) : Nat → Option (List Char)
  | 0 => const4Grp2 l0
  | k + 1 => (const4Grp2 (l0.drop (k + 1))).orElse fun _ => const4Starts l0 k

/-- `(\d+)\s*[-–—]\s*([A-Z\s]{8,}?)(?:\s|$)`. -/
def const4At (l : List Char) : Option (List Char × List Char) :=
  let d := runLen Char.isDigit l
  if d = 0 then none
  else
    let l1 := l.drop d
    match l1.drop (runLen pyWS l1) with
    | c :: rest =>
      if dashC c then
        (const4Starts rest (runLen pyWS rest)).map fun g2 => (l.take d, g2)
      else none
    | [] => none

/-- The constituency pattern cascade: the first matching pattern wins. -/
def constituencyPick (tc : List Char) : Option (List Char × List Char) :=
  match reSearchP const1At (tc.length + 1) tc with
  | some p => some p
  | none =>
    match reSearchP const2At (tc.length + 1) tc with
    | some p => some p
    | none =>
      match reSearchP const3At (tc.length + 1) tc with
      | some p => some p
      | none => reSearchP const4At (tc.length + 1) tc

/-- `\s*:?\s*(\d+)` tail of the part-number patterns. -/
def p1Tail (l : List Char) : Option (List Char) :=
  let digitsTail : List Char → Option (List Char) := fun u =>
    let w2 := runLen pyWS u
    let d := runLen Char.isDigit (u.drop w2)
    if 1 ≤ d then some ((u.drop w2).take d) else none
  let l1 := l.drop (runLen pyWS l)
  match l1 with
  | ':' :: r2 => (digitsTail r2).orElse fun _ => digitsTail l1
  | _ => digitsTail l1

/-- `Part\s+No\.?\s*:?\s*(\d+)`. -/
def part1At (l : List Char) : Option (List Char) :=
  if ciStarts "Part".data l then
    let w := runLen pyWS (l.drop 4)
    if 1 ≤ w ∧ ciStarts "No".data (l.drop (4 + w)) then
      let l2 := l.drop (4 + w + 2)
      match l2 with
      | '.' :: r => (p1Tail r).orElse fun _ => p1Tail l2
      | _ => p1Tail l2
    else none
  else none

/-- `Part\s+Number\s*:?\s*(\d+)`. -/
def part2At (l : List Char) : Option (List Char) :=
  if ciStarts "Part".data l then
    let w := runLen pyWS (l.drop 4)
    if 1 ≤ w ∧ ciStarts "Number".data (l.drop (4 + w)) then
      p1Tail (l.drop (4 + w + 6))
    else none
  else none

/-- `Part\s*:?\s*(\d+)`. -/
def part3At (l : List Char) : Option (List Char) :=
  if ciStarts "Part".data l then p1Tail (l.drop 4) else none

/-- `(\d+)\s*$` (no MULTILINE). -/
def part4At (l : List Char) : Option (List Char) :=
  let d := runLen Char.isDigit l
  if 1 ≤ d ∧ sfxWsDollarNoM (l.drop d) then some (l.take d) else none

/-- The part-number pattern cascade. -/
def partPick (tc : List Char) : Option (List Char) :=
  firstSomeL
    [reSearchG part1At (tc.length + 1) tc, reSearchG part2At (tc.length + 1) tc,
     reSearchG part3At (tc.length + 1) tc, reSearchG part4At (tc.length + 1) tc]

/-- `Parliamentary\s+Constituency.*?(\d+).*?[-–—]\s*([A-Z][A-Z\s\(\)]+)`. -/
def pl1At (l : List Char) : Option (List Char × List Char) :=
  if ciStarts "Parliamentary".data l then
    let w := runLen pyWS (l.drop 13)
    if 1 ≤ w ∧ ciStarts "Constituency".data (l.drop (13 + w)) then
      metaTail parlGrp2 (l.drop (13 + w + 12))
    else none
  else none

/-- `Lok\s+Sabha.*?(\d+).*?[-–—]\s*([A-Z][A-Z\s\(\)]+)`. -/
def pl2At (l : List Char) : Option (List Char × List Char) :=
  if ciStarts "Lok".data l then
    let w := runLen pyWS (l.drop 3)
    if 1 ≤ w ∧ ciStarts "Sabha".data (l.drop (3 + w)) then
      metaTail parlGrp2 (l.drop (3 + w + 5))
    else none
  else none

/-- The parliamentary pattern cascade. -/
def parliamentPick (tc : List Char) : Option (List Char × List Char) :=
  match reSearchP pl1At (tc.length + 1) tc with
  | some p => some p
  | none => reSearchP pl2At (tc.length + 1) tc

/-- `([A-Z][A-Z\s]+?)` with a location-specific suffix. -/
def locGrp (sfx : List Char → Bool) (l : List Char) : Option (List Char) :=
  match l with
  | c :: rest =>
    if c.isAlpha then expandLazyN classLW sfx (rest.length + 1) 1 [c] rest
    else none
  | [] => none

/-- A location keyword followed by `\s*:?\s*` and its capture group. -/
def locTailAt (kw : List Char) (sfx : List Char → Bool) (l : List Char) :
    Option (List Char) :=
  if ciStarts kw l then
    let l1 := l.drop (kw.length + runLen pyWS (l.drop kw.length))
    match l1 with
    | ':' :: l2 => locGrp sfx (l2.drop (runLen pyWS l2))
    | _ => locGrp sfx l1
  else none

/-- Suffix `(?:\s*\d|\s*Pin|\s*$)` of the district pattern. -/
def districtSfx (u : List Char) : Bool :=
  (let v := u.drop (runLen pyWS u)
   (match v with
    | c :: _ => c.isDigit
    | [] => false) || ciStarts "Pin".data v) ||
  sfxWsDollarNoM u

/-- Suffix `(?:\s*District|\s*$)` of the subdivision pattern. -/
def subdivSfx (u : List Char) : Bool :=
  ciStarts "District".data (u.drop (runLen pyWS u)) || sfxWsDollarNoM u

/-- `Pin\s+code\s*:?\s*(\d{6})`. -/
def pinAt (l : List Char) : Option (List Char) :=
  if ciStarts "Pin".data l then
    let w := runLen pyWS (l.drop 3)
    if 1 ≤ w ∧ ciStarts "code".data (l.drop (3 + w)) then
      let l1 := l.drop (3 + w + 4)
      let l2 := l1.drop (runLen pyWS l1)
      let l3 := match l2 with
        | ':' :: r => r
        | _ => l2
      let l4 := l3.drop (runLen pyWS l3)
      if 6 ≤ runLen Char.isDigit l4 then some (l4.take 6) else none
    else none
  else none

/-- `extract_metadata_flexible` (src/script.py lines 286-350): clean the
text, then run the constituency, part-number, parliamentary and location
cascades, stripping every captured group. -/
def extractMetadataFlexible (text : List Char) : Metadata :=
  let tc := clean text
  let cs := constituencyPick tc
  let pt := partPick tc
  let pl := parliamentPick tc
  ⟨pl.map (fun p => pyStrip p.1),
   pl.map (fun p => pyStrip p.2),
   cs.map (fun p => pyStrip p.1),
   cs.map (fun p => pyStrip p.2),
   pt.map pyStrip,
   (reSearchG (locTailAt "District".data districtSfx) (tc.length + 1) tc).map pyStrip,
   (reSearchG (locTailAt "Subdivision".data subdivSfx) (tc.length + 1) tc).map pyStrip,
   (reSearchG (locTailAt "Tehsil".data sfxWsDollarNoM) (tc.length + 1) tc).map pyStrip,
   (reSearchG (locTailAt "Block".data sfxWsDollarNoM) (tc.length + 1) tc).map pyStrip,
   (reSearchG pinAt (tc.length + 1) tc).map pyStrip⟩

/-- The example header of the specification. -/
def exampleHeader : List Char :=
  "Assembly Constituency No. 42 - SAMPLE TOWN Part No: 7".data

/-- C9: on the example header the extractor yields jurisdiction number "42",
jurisdiction name "SAMPLE TOWN" and part number "7"; for each field the
first matching pattern of the cascade wins (a match of the most specific
pattern determines the field); and the fourth constituency pattern's greedy
`\s*` backtracks into the whitespace-inclusive capture class, so on
"Q 12 - ABCDEFG 5" (where only that pattern matches) the raw groups are
"12" and " ABCDEFG". -/
theorem claim_C9_metadata_example :
    (extractMetadataFlexible exampleHeader).vidhanNo = some "42".data ∧
    (extractMetadataFlexible exampleHeader).vidhanName = some "SAMPLE TOWN".data ∧
    (extractMetadataFlexible exampleHeader).partNo = some "7".data ∧
    constituencyPick (clean "Q 12 - ABCDEFG 5".data) =
      some ("12".data, " ABCDEFG".data) ∧
    (∀ tc p, reSearchP const1At (tc.length + 1) tc = some p →
      constituencyPick tc = some p) ∧
    (∀ tc g, reSearchG part1At (tc.length + 1) tc = some g →
      partPick tc = some g) := by
  refine ⟨by decide, by decide, by decide, by decide, ?_, ?_⟩
  · intro tc p h
    simp [constituencyPick, h]
  · intro tc g h
    simp [partPick, h, firstSomeL]

/-- C9 witness: the cascade lemmas applied to the example header: the first
constituency pattern already matches, with raw groups "42" and
"SAMPLE TOWN " (stripped later). -/
theorem claim_C9_witness :
    constituencyPick (clean exampleHeader) =
      some ("42".data, "SAMPLE TOWN ".data) :=
  claim_C9_metadata_example.2.2.2.2.1 (clean exampleHeader) _ (by decide)

/-! ## Whitespace shape of cleaned text

The strategy-priority claim needs two structural facts about `clean`'s
output: no two adjacent characters are both whitespace, and the first
character is not whitespace.  They follow stage by stage through the
pipeline. -/

/-- Not both whitespace (the adjacency relation of cleaned text). -/
def noWW (a b : Char) : Prop := ¬(pyWS a = true ∧ pyWS b = true)

section StrategyPriority

attribute [local irreducible] applyCorrections

theorem runLen_le (p : Char → Bool) (l : List Char) : runLen p l ≤ l.length := by
  induction l with
  | nil => simp [runLen]
  | cons c rest ih =>
    by_cases h : p c
    · simpa [runLen, List.takeWhile_cons, h] using ih
    · simp [runLen, List.takeWhile_cons, h]

theorem takeWhile_add_dropWhile_length (p : Char → Bool) (l : List Char) :
    (l.takeWhile p).length + (l.dropWhile p).length = l.length := by
  rw [← List.length_append, List.takeWhile_append_dropWhile]

theorem head?_dropWhile_not (p : Char → Bool) (l : List Char) (c : Char)
    (h : (l.dropWhile p).head? = some c) : p c = false := by
  induction l with
  | nil => simp [List.dropWhile] at h
  | cons a rest ih =>
    by_cases ha : p a
    · exact ih (by simpa [List.dropWhile_cons, ha] using h)
    · simp [List.dropWhile_cons, ha] at h
      subst h
      simpa using ha

theorem chain'_dropWhile (p : Char → Bool) (l : List Char)
    (h : List.Chain' noWW l) : List.Chain' noWW (l.dropWhile p) := by
  induction l with
  | nil => simpa using h
  | cons a rest ih =>
    by_cases ha : p a
    · simpa [List.dropWhile_cons, ha] using ih (List.chain'_cons'.mp h).2
    · simpa [List.dropWhile_cons, ha] using h

theorem chain'_reverse_noWW (l : List Char) (h : List.Chain' noWW l) :
    List.Chain' noWW l.reverse := by
  rw [List.chain'_reverse]
  exact h.imp fun a b hab => by
    intro hc
    exact hab ⟨hc.2, hc.1⟩

/-- A whitespace-isolated list has a whitespace prefix of length at most 1. -/
theorem takeWhile_pyWS_le_one (l : List Char) (h : List.Chain' noWW l) :
    (l.takeWhile pyWS).length ≤ 1 := by
  cases l with
  | nil => simp
  | cons a rest =>
    by_cases ha : pyWS a
    · cases rest with
      | nil => simp [List.takeWhile_cons, ha]
      | cons b rest2 =>
        have hb : ¬ pyWS b = true := by
          have := (List.chain'_cons'.mp h).1 b rfl
          intro hbb
          exact this ⟨ha, hbb⟩
        simp [List.takeWhile_cons, ha, hb]
    · simp [List.takeWhile_cons, ha]

theorem pyStrip_length_le (l : List Char) : (pyStrip l).length ≤ l.length := by
  unfold pyStrip
  have h1 : (l.dropWhile pyWS).length ≤ l.length := by
    have := takeWhile_add_dropWhile_length pyWS l
    omega
  have h2 : ((l.dropWhile pyWS).reverse.dropWhile pyWS).length ≤
      (l.dropWhile pyWS).reverse.length := by
    have := takeWhile_add_dropWhile_length pyWS (l.dropWhile pyWS).reverse
    omega
  simpa using le_trans h2 (by simpa using h1)

theorem pyStrip_length_ge (l : List Char) (h : List.Chain' noWW l) :
    l.length ≤ (pyStrip l).length + 2 := by
  unfold pyStrip
  have hx : List.Chain' noWW (l.dropWhile pyWS) := chain'_dropWhile pyWS l h
  have hxr : List.Chain' noWW (l.dropWhile pyWS).reverse := chain'_reverse_noWW _ hx
  have h1 : l.length ≤ (l.dropWhile pyWS).length + 1 := by
    have := takeWhile_add_dropWhile_length pyWS l
    have := takeWhile_pyWS_le_one l h
    omega
  have h2 : (l.dropWhile pyWS).length ≤
      ((l.dropWhile pyWS).reverse.dropWhile pyWS).length + 1 := by
    have hsum := takeWhile_add_dropWhile_length pyWS (l.dropWhile pyWS).reverse
    have hone := takeWhile_pyWS_le_one _ hxr
    rw [List.length_reverse] at hsum
    omega
  simp only [List.length_reverse]
  omega

theorem pyStrip_length_ge_head (l : List Char) (h : List.Chain' noWW l)
    (hh : ∀ c, l.head? = some c → pyWS c = false) :
    l.length ≤ (pyStrip l).length + 1 := by
  unfold pyStrip
  have hdw : l.dropWhile pyWS = l := by
    cases l with
    | nil => rfl
    | cons a rest =>
      have := hh a rfl
      simp [List.dropWhile_cons, this]
  rw [hdw]
  have hxr : List.Chain' noWW l.reverse := chain'_reverse_noWW _ h
  have := takeWhile_add_dropWhile_length pyWS l.reverse
  have := takeWhile_pyWS_le_one _ hxr
  simp only [List.length_reverse] at *
  omega

theorem wsCGo_head? (fuel : Nat) (l : List Char) (hf : l.length < fuel) :
    (wsCGo fuel l).head? = l.head?.map (fun c => if pyWS c then ' ' else c) := by
  cases fuel with
  | zero => omega
  | succ n =>
    cases l with
    | nil => rfl
    | cons c rest =>
      by_cases hc : pyWS c
      · simp [wsCGo, hc]
      · simp [wsCGo, hc]

theorem wsCGo_chain (fuel : Nat) : ∀ l : List Char, l.length < fuel →
    List.Chain' noWW (wsCGo fuel l) := by
  induction fuel with
  | zero => intro l hf; omega
  | succ n ih =>
    intro l hf
    cases l with
    | nil => simp [wsCGo]
    | cons c rest =>
      by_cases hc : pyWS c
      · have hlen : (rest.dropWhile pyWS).length < n := by
          have h1 := takeWhile_add_dropWhile_length pyWS rest
          simp at hf
          omega
        have hstep : wsCGo (n + 1) (c :: rest) =
            ' ' :: wsCGo n (rest.dropWhile pyWS) := by
          simp [wsCGo, hc]
        rw [hstep]
        refine List.Chain'.cons' (ih _ hlen) ?_
        intro y hy
        rw [wsCGo_head? n _ hlen] at hy
        rcases hd : (rest.dropWhile pyWS).head? with _ | d
        · rw [hd] at hy; simp at hy
        · rw [hd] at hy
          have hdws : pyWS d = false := head?_dropWhile_not pyWS rest d hd
          simp [hdws] at hy
          subst hy
          intro hcc
          simp [hdws] at hcc
      · have hlen : rest.length < n := by simp at hf; omega
        have hstep : wsCGo (n + 1) (c :: rest) = c :: wsCGo n rest := by
          simp [wsCGo, hc]
        rw [hstep]
        refine List.Chain'.cons' (ih _ hlen) ?_
        intro y _ hcc
        exact hc (by simp [hcc.1])

theorem wsCGo_no_newline (fuel : Nat) : ∀ l : List Char, l.length < fuel →
    '\n' ∉ wsCGo fuel l := by
  induction fuel with
  | zero => intro l hf; omega
  | succ n ih =>
    intro l hf
    cases l with
    | nil => simp [wsCGo]
    | cons c rest =>
      by_cases hc : pyWS c
      · have hlen : (rest.dropWhile pyWS).length < n := by
          have := takeWhile_add_dropWhile_length pyWS rest
          simp at hf
          omega
        have hstep : wsCGo (n + 1) (c :: rest) =
            ' ' :: wsCGo n (rest.dropWhile pyWS) := by
          simp [wsCGo, hc]
        rw [hstep]
        intro hmem
        rcases List.mem_cons.mp hmem with h | h
        · exact absurd h (by decide)
        · exact ih _ hlen h
      · have hlen : rest.length < n := by simp at hf; omega
        have hstep : wsCGo (n + 1) (c :: rest) = c :: wsCGo n rest := by
          simp [wsCGo, hc]
        rw [hstep]
        intro hmem
        rcases List.mem_cons.mp hmem with h | h
        · exact hc (by rw [← h]; decide)
        · exact ih _ hlen h

theorem nlCGo_id (fuel : Nat) : ∀ l : List Char, l.length < fuel →
    '\n' ∉ l → nlCGo fuel l = l := by
  induction fuel with
  | zero => intro l hf; omega
  | succ n ih =>
    intro l hf hnl
    cases l with
    | nil => rfl
    | cons c rest =>
      have hc : ¬ c = '\n' := fun h => hnl (h ▸ List.mem_cons_self c rest)
      have : rest.length < n := by simp at hf; omega
      simp only [nlCGo, if_neg hc]
      rw [ih rest this (fun h => hnl (List.mem_cons_of_mem c h))]

theorem punctFixGo_head? (p : Char) (fuel : Nat) : ∀ (l : List Char) (c : Char),
    (punctFixGo p fuel l).head? = some c → c = p ∨ l.head? = some c := by
  induction fuel with
  | zero => intro l c h; exact Or.inr h
  | succ n _ =>
    intro l c h
    cases l with
    | nil => simp [punctFixGo] at h
    | cons a rest =>
      by_cases ha : a = p
      · simp [punctFixGo, ha] at h
        exact Or.inl h.symm
      · by_cases haw : pyWS a
        · rcases hdw : (a :: rest).dropWhile pyWS with _ | ⟨q, rest2⟩
          · simp only [punctFixGo, if_neg ha, if_pos haw, hdw] at h
            simp at h
            exact Or.inr (by simp [h])
          · by_cases hq : q = p
            · simp only [punctFixGo, if_neg ha, if_pos haw, hdw, if_pos hq] at h
              simp at h
              exact Or.inl h.symm
            · simp only [punctFixGo, if_neg ha, if_pos haw, hdw, if_neg hq] at h
              simp at h
              exact Or.inr (by simp [h])
        · simp only [punctFixGo, if_neg ha, if_neg haw] at h
          simp at h
          exact Or.inr (by simp [h])

theorem dropWhile_tail_chain (p : Char → Bool) (l : List Char)
    (h : List.Chain' noWW l) :
    ∀ q rest2, l.dropWhile p = q :: rest2 → List.Chain' noWW (q :: rest2) := by
  intro q rest2 hdw
  have := chain'_dropWhile p l h
  rwa [hdw] at this

theorem punctFixGo_chain (p : Char) (hp : pyWS p = false) (fuel : Nat) :
    ∀ l : List Char, List.Chain' noWW l →
    List.Chain' noWW (punctFixGo p fuel l) := by
  induction fuel with
  | zero => intro l h; exact h
  | succ n ih =>
    intro l h
    cases l with
    | nil => simpa [punctFixGo] using h
    | cons a rest =>
      have hrest : List.Chain' noWW rest := (List.chain'_cons'.mp h).2
      by_cases ha : a = p
      · simp only [punctFixGo, if_pos ha]
        have hrec := ih (rest.dropWhile pyWS) (chain'_dropWhile pyWS rest hrest)
        refine List.Chain'.cons' (List.Chain'.cons' hrec ?_) ?_
        · intro y hy
          rcases punctFixGo_head? p n _ y hy with rfl | hy2
          · intro hcc; simp [hp] at hcc
          · have := head?_dropWhile_not pyWS rest y hy2
            intro hcc; simp [this] at hcc
        · intro y hy
          simp at hy
          subst hy
          intro hcc; simp [hp] at hcc
      · by_cases haw : pyWS a
        · rcases hdw : (a :: rest).dropWhile pyWS with _ | ⟨q, rest2⟩
          · simp only [punctFixGo, if_neg ha, if_pos haw, hdw]
            refine List.Chain'.cons' (ih rest hrest) ?_
            intro y hy
            rcases punctFixGo_head? p n _ y hy with rfl | hy2
            · intro hcc; simp [hp] at hcc
            · have hy3 : ∀ z, rest.head? = some z → pyWS z = false := by
                intro z hz
                by_contra hzz
                simp only [Bool.not_eq_false] at hzz
                exact (List.chain'_cons'.mp h).1 z hz ⟨haw, hzz⟩
              have := hy3 y hy2
              intro hcc; simp [this] at hcc
          · by_cases hq : q = p
            · simp only [punctFixGo, if_neg ha, if_pos haw, hdw, if_pos hq]
              have hch2 : List.Chain' noWW (q :: rest2) :=
                dropWhile_tail_chain pyWS _ h q rest2 hdw
              have hrec := ih (rest2.dropWhile pyWS)
                (chain'_dropWhile pyWS rest2 (List.chain'_cons'.mp hch2).2)
              refine List.Chain'.cons' (List.Chain'.cons' hrec ?_) ?_
              · intro y hy
                rcases punctFixGo_head? p n _ y hy with rfl | hy2
                · intro hcc; simp [hp] at hcc
                · have := head?_dropWhile_not pyWS rest2 y hy2
                  intro hcc; simp [this] at hcc
              · intro y hy
                simp at hy
                subst hy
                intro hcc; simp [hp] at hcc
            · simp only [punctFixGo, if_neg ha, if_pos haw, hdw, if_neg hq]
              refine List.Chain'.cons' (ih rest hrest) ?_
              intro y hy
              rcases punctFixGo_head? p n _ y hy with rfl | hy2
              · intro hcc; simp [hp] at hcc
              · exact (List.chain'_cons'.mp h).1 y hy2
        · simp only [punctFixGo, if_neg ha, if_neg haw]
          refine List.Chain'.cons' (ih rest hrest) ?_
          intro y hy
          rcases punctFixGo_head? p n _ y hy with rfl | hy2
          · intro hcc; simp [hp] at hcc
          · exact (List.chain'_cons'.mp h).1 y hy2

/-- Removing trailing whitespace never changes the head of a list. -/
theorem rstrip_head? (p : Char → Bool) (x : List Char) (c : Char)
    (h : ((x.reverse.dropWhile p).reverse).head? = some c) : x.head? = some c := by
  induction x using List.reverseRecOn with
  | nil => simp at h
  | append_singleton ys a ih =>
    rw [List.reverse_append] at h
    simp only [List.reverse_cons, List.reverse_nil, List.nil_append,
      List.singleton_append] at h
    by_cases ha : p a
    · rw [List.dropWhile_cons, if_pos ha] at h
      have hys := ih h
      cases ys with
      | nil => simp at hys
      | cons y t => simpa using hys
    · rw [List.dropWhile_cons, if_neg ha] at h
      simp only [List.reverse_cons, List.reverse_reverse] at h
      exact h

theorem pyStrip_chain (l : List Char) (h : List.Chain' noWW l) :
    List.Chain' noWW (pyStrip l) := by
  unfold pyStrip
  exact chain'_reverse_noWW _
    (chain'_dropWhile pyWS _ (chain'_reverse_noWW _ (chain'_dropWhile pyWS l h)))

theorem pyStrip_head (l : List Char) (c : Char)
    (h : (pyStrip l).head? = some c) : pyWS c = false := by
  unfold pyStrip at h
  exact head?_dropWhile_not pyWS l c (rstrip_head? pyWS (l.dropWhile pyWS) c h)

theorem wsCollapse_chain (l : List Char) : List.Chain' noWW (wsCollapse l) :=
  wsCGo_chain (l.length + 1) l (by omega)

theorem wsCollapse_no_newline (l : List Char) : '\n' ∉ wsCollapse l :=
  wsCGo_no_newline (l.length + 1) l (by omega)

theorem nlCollapse_id (l : List Char) (h : '\n' ∉ l) : nlCollapse l = l :=
  nlCGo_id (l.length + 1) l (by omega) h

theorem punctFix_chain (p : Char) (hp : pyWS p = false) (l : List Char)
    (h : List.Chain' noWW l) : List.Chain' noWW (punctFix p l) :=
  punctFixGo_chain p hp (l.length + 1) l h

theorem punctFix_head? (p : Char) (l : List Char) (c : Char)
    (h : (punctFix p l).head? = some c) : c = p ∨ l.head? = some c :=
  punctFixGo_head? p (l.length + 1) l c h

/-- Cleaned text is whitespace-isolated and never starts with whitespace. -/
theorem clean_shape (s : List Char) :
    List.Chain' noWW (clean s) ∧
      (∀ c, (clean s).head? = some c → pyWS c = false) := by
  unfold clean
  by_cases hs : s.isEmpty
  · simp [hs]
  · simp only [hs, Bool.false_eq_true, if_false]
    have hch1 := wsCollapse_chain (applyCorrections s)
    have hnl2 := nlCollapse_id _ (wsCollapse_no_newline (applyCorrections s))
    rw [hnl2]
    have hch3 := pyStrip_chain _ hch1
    have hh3 : ∀ c, (pyStrip (wsCollapse (applyCorrections s))).head? = some c →
        pyWS c = false := fun c hc => pyStrip_head _ c hc
    have hch4 := punctFix_chain ':' (by decide) _ hch3
    have hh4 : ∀ c, (punctFix ':' (pyStrip (wsCollapse (applyCorrections s)))).head? =
        some c → pyWS c = false := by
      intro c hc
      rcases punctFix_head? ':' _ c hc with rfl | hc2
      · decide
      · exact hh3 c hc2
    refine ⟨punctFix_chain ',' (by decide) _ hch4, ?_⟩
    intro c hc
    rcases punctFix_head? ',' _ c hc with rfl | hc2
    · decide
    · exact hh4 c hc2

/-! ## Identifier match spans -/

theorem orElse_eq_some {α : Type} (a : Option α) (f : Unit → Option α) (v : α)
    (h : a.orElse f = some v) : a = some v ∨ f () = some v := by
  cases a with
  | none => simp [Option.orElse] at h; exact Or.inr h
  | some x => simp [Option.orElse] at h; exact Or.inl (by rw [h])

theorem upTake_le (l : List Char) (k : Nat) (h : upTake l k = true) :
    k ≤ l.length := by
  simp [upTake] at h
  exact h.1

theorem slashDigits_bound (u : List Char) (a : Nat)
    (h : slashDigits u = some a) : 2 ≤ a ∧ a ≤ u.length := by
  cases u with
  | nil => simp [slashDigits] at h
  | cons c rest =>
    simp only [slashDigits] at h
    split at h
    · split at h
      · simp at h
      · next hd =>
        have hle := runLen_le Char.isDigit rest
        simp at h
        have hlen : (c :: rest).length = rest.length + 1 := rfl
        omega
    · simp at h

theorem idPat1Try_bound (l : List Char) (k0 k : Nat) (h2 : 2 ≤ k0)
    (h : idPat1Try l k0 = some k) : 8 ≤ k ∧ k ≤ l.length := by
  simp only [idPat1Try] at h
  split at h
  · next hup =>
    have hk0 := upTake_le l k0 hup
    split at h
    · next a h1 =>
      split at h
      · next b hbb =>
        split at h
        · next c hcc =>
          simp only [Option.some.injEq] at h
          have b1 := slashDigits_bound _ _ h1
          have b2 := slashDigits_bound _ _ hbb
          have b3 := slashDigits_bound _ _ hcc
          rw [List.length_drop] at b1 b2 b3
          omega
        · simp at h
      · simp at h
    · simp at h
  · simp at h

theorem idPat1At_bound (l : List Char) (k : Nat)
    (h : idPat1At l = some k) : 8 ≤ k ∧ k ≤ l.length := by
  rcases orElse_eq_some _ _ _ h with h4 | h'
  · exact idPat1Try_bound l 4 k (by omega) h4
  · rcases orElse_eq_some _ _ _ h' with h3 | h2
    · exact idPat1Try_bound l 3 k (by omega) h3
    · exact idPat1Try_bound l 2 k (by omega) h2

theorem idPat2At_bound (l : List Char) (k : Nat)
    (h : idPat2At l = some k) : 8 ≤ k ∧ k ≤ l.length := by
  simp only [idPat2At] at h
  split at h
  · next hup =>
    have hk0 := upTake_le l 3 hup
    split at h
    · next hd =>
      have := runLen_le Char.isDigit (l.drop 3)
      rw [List.length_drop] at this
      simp at h
      omega
    · simp at h
  · simp at h

theorem idPat3Try_bound (l : List Char) (k0 k : Nat) (h2 : 2 ≤ k0)
    (h : idPat3Try l k0 = some k) : 8 ≤ k ∧ k ≤ l.length := by
  simp only [idPat3Try] at h
  split at h
  · next hup =>
    have hk0 := upTake_le l k0 hup
    split at h
    · next hd =>
      have := runLen_le Char.isDigit (l.drop k0)
      rw [List.length_drop] at this
      simp at h
      omega
    · simp at h
  · simp at h

theorem idPat3At_bound (l : List Char) (k : Nat)
    (h : idPat3At l = some k) : 8 ≤ k ∧ k ≤ l.length := by
  rcases orElse_eq_some _ _ _ h with h4 | h'
  · exact idPat3Try_bound l 4 k (by omega) h4
  · rcases orElse_eq_some _ _ _ h' with h3 | h2
    · exact idPat3Try_bound l 3 k (by omega) h3
    · exact idPat3Try_bound l 2 k (by omega) h2

theorem finditerGo_bound (m : List Char → Option Nat)
    (hm : ∀ u k, m u = some k → 8 ≤ k ∧ k ≤ u.length) :
    ∀ fuel pos l a b, (a, b) ∈ finditerGo m fuel pos l →
      a + 8 ≤ b ∧ b ≤ pos + l.length := by
  intro fuel
  induction fuel with
  | zero => intro pos l a b h; simp [finditerGo] at h
  | succ n ih =>
    intro pos l a b h
    cases l with
    | nil => simp [finditerGo] at h
    | cons c rest =>
      rcases hmk : m (c :: rest) with _ | k
      · rw [show finditerGo m (n + 1) pos (c :: rest) =
            finditerGo m n (pos + 1) rest from by simp [finditerGo, hmk]] at h
        have := ih (pos + 1) rest a b h
        simp at this ⊢
        omega
      · rw [show finditerGo m (n + 1) pos (c :: rest) =
            (pos, pos + k) :: finditerGo m n (pos + k) ((c :: rest).drop k) from by
          simp [finditerGo, hmk]] at h
        have hk := hm _ _ hmk
        rcases List.mem_cons.mp h with heq | hmem
        · rw [Prod.mk.injEq] at heq
          obtain ⟨rfl, rfl⟩ := heq
          simp at hk ⊢
          omega
        · have := ih (pos + k) _ a b hmem
          rw [List.length_drop] at this
          simp at hk this ⊢
          omega

theorem insertSpan_perm (a : Nat × Nat) (l : List (Nat × Nat)) :
    List.Perm (insertSpan a l) (a :: l) := by
  induction l with
  | nil => exact List.Perm.refl _
  | cons b rest ih =>
    by_cases h : spanLe a b
    · simp [insertSpan, h]
    · simp only [insertSpan, h, Bool.false_eq_true, if_false]
      exact (ih.cons b).trans (List.Perm.swap a b rest)

theorem sortSpans_perm (l : List (Nat × Nat)) : List.Perm (sortSpans l) l := by
  induction l with
  | nil => exact List.Perm.refl _
  | cons a rest ih => exact (insertSpan_perm a (sortSpans rest)).trans (ih.cons a)

theorem idPositions_bound (t : List Char) (a b : Nat)
    (h : (a, b) ∈ idPositions t) : a + 8 ≤ b ∧ b ≤ t.length := by
  have hmem : (a, b) ∈ finditer idPat1At t ++ finditer idPat2At t ++
      finditer idPat3At t := (sortSpans_perm _).mem_iff.mp h
  rcases List.mem_append.mp hmem with h12 | h3
  · rcases List.mem_append.mp h12 with h1 | h2
    · have := finditerGo_bound idPat1At idPat1At_bound (t.length + 1) 0 t a b h1
      omega
    · have := finditerGo_bound idPat2At idPat2At_bound (t.length + 1) 0 t a b h2
      omega
  · have := finditerGo_bound idPat3At idPat3At_bound (t.length + 1) 0 t a b h3
    omega

theorem getLast?_of_ne_nil {α : Type} : ∀ (l : List α), l ≠ [] →
    ∃ p, l.getLast? = some p := by
  intro l
  induction l with
  | nil => intro h; exact absurd rfl h
  | cons a rest ih =>
    intro _
    cases rest with
    | nil => exact ⟨a, rfl⟩
    | cons b rest2 =>
      obtain ⟨p, hp⟩ := ih (by simp)
      exact ⟨p, by rwa [List.getLast?_cons_cons]⟩

theorem mem_of_getLast? {α : Type} : ∀ (l : List α) (p : α),
    l.getLast? = some p → p ∈ l := by
  intro l
  induction l with
  | nil => intro p h; simp at h
  | cons a rest ih =>
    intro p h
    cases rest with
    | nil =>
      simp [List.getLast?] at h
      simp [h]
    | cons b rest2 =>
      rw [List.getLast?_cons_cons] at h
      exact List.mem_cons_of_mem a (ih p h)

theorem blockSpans_getLast_mem (t : List Char) : ∀ (ps : List (Nat × Nat)) (s e : Nat),
    ps.getLast? = some (s, e) →
    (s - 50, min t.length (s + 1000)) ∈ blockSpans t ps := by
  intro ps
  induction ps with
  | nil => intro s e h; simp at h
  | cons p rest ih =>
    intro s e h
    cases rest with
    | nil =>
      simp [List.getLast?] at h
      obtain ⟨rfl, rfl⟩ : p.1 = s ∧ p.2 = e := by
        rcases p with ⟨p1, p2⟩
        simp at h
        exact ⟨h.1, h.2⟩
      simp [blockSpans]
    | cons q rest2 =>
      rw [List.getLast?_cons_cons] at h
      rcases p with ⟨p1, p2⟩
      exact List.mem_cons_of_mem _ (ih s e h)

theorem slice_length (t : List Char) (a b : Nat) :
    (slice t a b).length = min b t.length - a := by
  simp [slice]

theorem slice_chain (t : List Char) (a b : Nat) (h : List.Chain' noWW t) :
    List.Chain' noWW (slice t a b) :=
  (h.take b).drop a

/-- If the block of the last identifier occurrence is discarded, the whole
cleaned text has at most 21 characters. -/
theorem dropped_last_block (t : List Char) (hch : List.Chain' noWW t)
    (hh : ∀ c, t.head? = some c → pyWS c = false)
    (s e : Nat) (hb : s + 8 ≤ e ∧ e ≤ t.length)
    (hdrop : ¬ 20 < (pyStrip (slice t (s - 50) (min t.length (s + 1000)))).length) :
    t.length ≤ 21 := by
  have hchs : List.Chain' noWW (slice t (s - 50) (min t.length (s + 1000))) :=
    slice_chain t _ _ hch
  have hlow := pyStrip_length_ge _ hchs
  have hsl := slice_length t (s - 50) (min t.length (s + 1000))
  have hminle : min t.length (s + 1000) ≤ t.length := Nat.min_le_left _ _
  have hmm : min (min t.length (s + 1000)) t.length = min t.length (s + 1000) :=
    Nat.min_eq_left hminle
  rw [hmm] at hsl
  by_cases h50 : 50 ≤ s
  · have hbge : s + 8 ≤ min t.length (s + 1000) :=
      le_min (by omega) (by omega)
    omega
  · have hz : s - 50 = 0 := by omega
    by_cases hblen : t.length ≤ s + 1000
    · have hbt : min t.length (s + 1000) = t.length := Nat.min_eq_left hblen
      have hslt : slice t (s - 50) (min t.length (s + 1000)) = t := by
        rw [hz, hbt]
        simp [slice]
      rw [hslt] at hdrop
      have := pyStrip_length_ge_head t hch hh
      omega
    · have hbt : min t.length (s + 1000) = s + 1000 := Nat.min_eq_right (by omega)
      omega

/-! ## Emptiness of the fallback strategies on short texts -/

theorem pySplitGo_part_le (m : List Char → Option Nat) :
    ∀ fuel cur l part, part ∈ pySplitGo m fuel cur l →
      part.length ≤ cur.length + l.length := by
  intro fuel
  induction fuel with
  | zero =>
    intro cur l part h
    simp [pySplitGo] at h
    subst h
    simp
  | succ n ih =>
    intro cur l part h
    cases l with
    | nil =>
      simp [pySplitGo] at h
      subst h
      simp
    | cons c rest =>
      rcases hmk : m (c :: rest) with _ | k
      · rw [show pySplitGo m (n + 1) cur (c :: rest) =
            pySplitGo m n (c :: cur) rest from by simp [pySplitGo, hmk]] at h
        have := ih (c :: cur) rest part h
        simp at this ⊢
        omega
      · rw [show pySplitGo m (n + 1) cur (c :: rest) =
            cur.reverse :: pySplitGo m n [] ((c :: rest).drop k) from by
          simp [pySplitGo, hmk]] at h
        rcases List.mem_cons.mp h with rfl | hmem
        · simp
        · have := ih [] _ part hmem
          rw [List.length_drop] at this
          simp at this ⊢
          omega

theorem strat2Blocks_nil (t : List Char) (hlen : t.length ≤ 21) :
    strat2Blocks t = [] := by
  unfold strat2Blocks
  rcases hsp : pySplit nameColonAt t with _ | ⟨hd, parts⟩
  · rfl
  · simp only []
    apply List.filterMap_eq_nil_iff.mpr
    intro part hpart
    have hmem : part ∈ pySplit nameColonAt t := by
      rw [hsp]; exact List.mem_cons_of_mem _ hpart
    have hle : part.length ≤ t.length := by
      have := pySplitGo_part_le nameColonAt (t.length + 1) [] t part hmem
      simpa using this
    have hchunk : ("Name: ".data ++ pyStrip (part.take 500)).length ≤ 27 := by
      have h1 : (pyStrip (part.take 500)).length ≤ part.length := by
        refine le_trans (pyStrip_length_le _) ?_
        rw [List.length_take]
        omega
      have h6 : ("Name: ".data).length = 6 := by decide
      rw [List.length_append, h6]
      omega
    rw [if_neg]
    rintro ⟨h30, -⟩
    have hap : ("Name: ".data ++ pyStrip (part.take 500)).length =
        (['N', 'a', 'm', 'e', ':', ' '] ++ pyStrip (part.take 500)).length := rfl
    omega

def sumLen (parts : List (List Char)) : Nat := (parts.map List.length).sum

theorem serialPatAt_bound (l : List Char) (k : Nat) (g1 g2 : List Char)
    (h : serialPatAt l = some (k, g1, g2)) :
    g1.length + g2.length ≤ k ∧ g1.length + g2.length ≤ l.length := by
  simp only [serialPatAt] at h
  split at h
  · simp at h
  · next hd =>
    split at h
    · simp at h
    · next hw =>
      split at h
      · next k2 hb =>
        simp only [Option.some.injEq, Prod.mk.injEq] at h
        obtain ⟨hk, hg1, hg2⟩ := h
        subst hk hg1 hg2
        constructor
        · rw [List.length_take, List.length_take]
          omega
        · rw [List.length_take, List.length_take, List.length_drop]
          have := runLen_le Char.isDigit l
          omega
      · split at h
        · next k2 hn =>
          simp only [Option.some.injEq, Prod.mk.injEq] at h
          obtain ⟨hk, hg1, hg2⟩ := h
          subst hk hg1 hg2
          constructor
          · rw [List.length_take, List.length_take]
            omega
          · rw [List.length_take, List.length_take, List.length_drop]
            have := runLen_le Char.isDigit l
            omega
        · simp at h

theorem strat3PartsGo_sum : ∀ (fuel : Nat) (cur l : List Char),
    sumLen (strat3PartsGo fuel cur l) ≤ cur.length + l.length := by
  intro fuel
  induction fuel with
  | zero =>
    intro cur l
    simp [strat3PartsGo, sumLen]
  | succ n ih =>
    intro cur l
    cases l with
    | nil => simp [strat3PartsGo, sumLen]
    | cons c rest =>
      rcases hmk : serialPatAt (c :: rest) with _ | ⟨k, g1, g2⟩
      · rw [show strat3PartsGo (n + 1) cur (c :: rest) =
            strat3PartsGo n (c :: cur) rest from by simp [strat3PartsGo, hmk]]
        have := ih (c :: cur) rest
        simp at this ⊢
        omega
      · rw [show strat3PartsGo (n + 1) cur (c :: rest) =
            cur.reverse :: g1 :: g2 :: strat3PartsGo n [] ((c :: rest).drop k) from by
          simp [strat3PartsGo, hmk]]
        have hrec := ih [] ((c :: rest).drop k)
        have hbd := serialPatAt_bound _ _ _ _ hmk
        rw [List.length_drop] at hrec
        simp [sumLen] at hrec hbd ⊢
        omega

theorem strat3Assemble_nil : ∀ (n : Nat) (parts : List (List Char)),
    parts.length ≤ n → sumLen parts ≤ 28 → strat3Assemble parts = [] := by
  intro n
  induction n with
  | zero =>
    intro parts hl _
    rcases parts with _ | ⟨x, parts2⟩
    · rfl
    · simp at hl
  | succ m ih =>
    intro parts hl hsum
    rcases parts with _ | ⟨x, parts2⟩
    · rfl
    · rcases parts2 with _ | ⟨g1, parts3⟩
      · rfl
      · rcases parts3 with _ | ⟨g2, rest⟩
        · rfl
        · rcases rest with _ | ⟨piece, more⟩
          · rfl
          · have hcomb :
                (pyStrip (g1 ++ [' '] ++ g2 ++ [' '] ++ piece.take 800)).length ≤ 30 := by
              refine le_trans (pyStrip_length_le _) ?_
              simp [List.length_append, List.length_take]
              simp [sumLen] at hsum
              omega
            show (if 30 < (pyStrip (g1 ++ [' '] ++ g2 ++ [' '] ++ piece.take 800)).length
                then [pyStrip (g1 ++ [' '] ++ g2 ++ [' '] ++ piece.take 800)] else []) ++
                strat3Assemble (piece :: more) = []
            rw [if_neg (by omega)]
            rw [List.nil_append]
            apply ih
            · simp at hl ⊢
              omega
            · simp [sumLen] at hsum ⊢
              omega

theorem strat3Blocks_nil (t : List Char) (hlen : t.length ≤ 21) :
    strat3Blocks t = [] := by
  unfold strat3Blocks
  refine strat3Assemble_nil (strat3Parts t).length _ le_rfl ?_
  have h := strat3PartsGo_sum (t.length + 1) [] t
  have h0 : strat3Parts t = strat3PartsGo (t.length + 1) [] t := rfl
  rw [h0]
  simp at h
  omega

/-- C7: the segmenter tries its three strategies in strict priority order and
uses only the first one yielding at least one block; moreover, whenever the
cleaned text contains at least one identifier-shaped token, the output of the
identifier-anchored strategy is used, even if name-label patterns also occur
in the text. -/
theorem claim_C7_strategy_priority :
    (∀ pageText : List Char,
      findVoterRecordsFlexible pageText =
        if (strat1Blocks (clean pageText)).isEmpty then
          (if (strat2Blocks (clean pageText)).isEmpty then
            strat3Blocks (clean pageText)
          else strat2Blocks (clean pageText))
        else strat1Blocks (clean pageText)) ∧
    (∀ pageText : List Char, idPositions (clean pageText) ≠ [] →
      findVoterRecordsFlexible pageText = strat1Blocks (clean pageText)) := by
  refine ⟨fun _ => rfl, ?_⟩
  intro s hid
  by_cases h1 : strat1Blocks (clean s) = []
  · obtain ⟨⟨s0, e0⟩, hlast⟩ := getLast?_of_ne_nil (idPositions (clean s)) hid
    have hmemPs : (s0, e0) ∈ idPositions (clean s) := mem_of_getLast? _ _ hlast
    have hb := idPositions_bound (clean s) s0 e0 hmemPs
    have hmemSpan : (s0 - 50, min (clean s).length (s0 + 1000)) ∈
        blockSpans (clean s) (idPositions (clean s)) :=
      blockSpans_getLast_mem (clean s) _ s0 e0 hlast
    have h1' : (((blockSpans (clean s) (idPositions (clean s))).map fun sp =>
        pyStrip (slice (clean s) sp.1 sp.2)).filter fun b => 20 < b.length) = [] := by
      rw [← strat1Go_eq_spanFilter]
      exact h1
    have hdrop : ¬ 20 < (pyStrip (slice (clean s) (s0 - 50)
        (min (clean s).length (s0 + 1000)))).length := by
      intro hgt
      have hmemMap : pyStrip (slice (clean s) (s0 - 50)
          (min (clean s).length (s0 + 1000))) ∈
          (blockSpans (clean s) (idPositions (clean s))).map fun sp =>
            pyStrip (slice (clean s) sp.1 sp.2) :=
        List.mem_map_of_mem _ hmemSpan
      have := List.filter_eq_nil_iff.mp h1' _ hmemMap
      simp at this
      omega
    obtain ⟨hch, hh⟩ := clean_shape s
    have hlen := dropped_last_block (clean s) hch hh s0 e0 hb hdrop
    have h2 := strat2Blocks_nil _ hlen
    have h3 := strat3Blocks_nil _ hlen
    simp [findVoterRecordsFlexible, h1, h2, h3]
  · simp [findVoterRecordsFlexible, h1]

end StrategyPriority

/-- A page text containing both an identifier-shaped token and name-label
patterns. -/
def segPriorityText : List Char :=
  "GHJ1234567 Name: John Doe Age: 34 Gender: Male House: 9".data

/-- C7 witness: on a text containing both an identifier and "Name:" labels,
the identifier-anchored output is used. -/
theorem claim_C7_witness :
    idPositions (clean segPriorityText) ≠ [] ∧
    findVoterRecordsFlexible segPriorityText = strat1Blocks (clean segPriorityText) :=
  ⟨by decide, claim_C7_strategy_priority.2 segPriorityText (by decide)⟩

end PdfOcr
